import Mathlib

/-!
Shallow embedding of the UnlockRS networking core (src/types.rs, src/type_impl.rs,
src/server.rs, src/client_conn.rs, src/input_buffer.rs) and proofs about the
claims of its specification.

Conventions of the embedding:
* bytes are `Nat` values (< 256 wherever the source stores a `u8`);
* machine integers are `Nat` with explicit `% 2 ^ w` at the points where the
  source wraps (`wrapping_add`, `as u8`, `as u16` casts);
* `HashMap` becomes an association list (`List (Nat × _)`), `VecDeque` and `Vec`
  become `List`;
* Rust code that can panic is modelled with `RustResult`, whose `panicked`
  value marks a run that hits an out-of-bounds index, a failing `unwrap`, or an
  explicit panic arm; `debug_assert!` is compiled out in release builds and is
  not modelled as a panic;
* `Instant` durations are naturals (milliseconds); `Instant::duration_since`
  saturates at zero exactly as `Nat` subtraction does.
-/

set_option maxRecDepth 100000
set_option maxHeartbeats 1000000

namespace UnlockRS

/-- Result of running Rust code that may panic. -/
inductive RustResult (α : Type) where
  | panicked
  | ok (a : α)
  deriving DecidableEq, Repr

/-! ## Constants from src/types.rs and the two retransmission sites -/

def MAX_UDP_PAYLOAD_LEN : Nat := 508
def AMT_RANDOM_BYTES : Nat := 1
def RELIABLE_FLAG_BYTE_POS : Nat := AMT_RANDOM_BYTES
def SEQ_NUM_BYTE_POS : Nat := RELIABLE_FLAG_BYTE_POS + 1
def BASE_CHUNK_SEQ_NUM_BYTE_POS : Nat := SEQ_NUM_BYTE_POS + 2
def AMT_OF_CHUNKS_BYTE_POS : Nat := BASE_CHUNK_SEQ_NUM_BYTE_POS + 2
def DISCRIMINANT_BIT_START_POS : Nat := AMT_OF_CHUNKS_BYTE_POS + 2
def DATA_BIT_START_POS : Nat := DISCRIMINANT_BIT_START_POS + 1
def MAX_UDP_PAYLOAD_DATA_LENGTH : Nat := MAX_UDP_PAYLOAD_LEN - DATA_BIT_START_POS
def PLAYER_MOVE_LEFT_BYTE_POS : Nat := 1
def PLAYER_MOVE_RIGHT_BYTE_POS : Nat := 2
def PLAYER_SHOOT_BYTE_POS : Nat := 3
def VECTOR_LEN_BYTE_POS : Nat := DATA_BIT_START_POS

/-- `MAX_RETRIES` in src/server.rs. -/
def serverMAX_RETRIES : Nat := 120
/-- `RETRY_TIMEOUT` in src/server.rs, in milliseconds. -/
def serverRETRY_TIMEOUT : Nat := 16
/-- `MAX_RETRIES` in src/client_conn.rs. -/
def clientMAX_RETRIES : Nat := 8
/-- `RETRY_TIMEOUT` in src/client_conn.rs, in milliseconds. -/
def clientRETRY_TIMEOUT : Nat := 250
/-- `MAX_PLAYER_COUNT` in src/client.rs. -/
def MAX_PLAYER_COUNT : Nat := 2

/-! ## Data model from src/types.rs -/

inductive PlayerInput where
  | Left
  | Right
  | Shoot
  deriving DecidableEq, Repr

inductive PlayerID where
  | Player1
  | Player2
  deriving DecidableEq, Repr

/-- `PlayerID as usize`. -/
def PlayerID.idx : PlayerID → Nat
  | .Player1 => 0
  | .Player2 => 1

structure NetworkedPlayerInput where
  inputs : List PlayerInput
  frame : Nat
  deriving DecidableEq, Repr

structure BufferedNetworkedPlayerInputs where
  buffered_inputs : List NetworkedPlayerInput
  deriving DecidableEq, Repr

inductive NetworkMessage where
  | GetServerPlayerIDs
  | GetOwnServerPlayerID
  | ClientSentWorld (data : List Nat)
  | ClientSentPlayerInputs (inp : BufferedNetworkedPlayerInputs)
  | ServerSideAck (seq_num : Nat)
  | ClientSideAck (seq_num : Nat)
  | ServerSentPlayerIDs (ids : List Nat)
  | ServerSentPlayerInputs (inp : BufferedNetworkedPlayerInputs)
  | ServerSentWorld (data : List Nat)
  | ClientConnectToOtherWorld (id : Nat)
  | ServerRequestHostForWorldData
  deriving DecidableEq, Repr

inductive NetworkMessageType where
  | ResendUntilAck (seq_num : Nat)
  | SendOnce
  | SendOnceButReceiveAck (seq_num : Nat)
  deriving DecidableEq, Repr

structure MessageHeader where
  reliable : Bool
  seq_num : Option Nat
  amt_of_chunks : Nat
  base_chunk_seq_num : Nat
  is_chunked : Bool
  message : NetworkMessage
  deriving DecidableEq, Repr

structure DeserializedMessage where
  reliable : Bool
  seq_num : Option Nat
  msg : NetworkMessage
  deriving DecidableEq, Repr

structure ChunkOfMessage where
  seq_num : Nat
  base_seq_num : Nat
  amt_of_chunks : Nat
  data_bytes : List Nat
  deriving DecidableEq, Repr, Inhabited

inductive DeserializedMessageType where
  | NonChunked (msg : DeserializedMessage)
  | ChunkOfMessage (chunk : ChunkOfMessage)
  deriving DecidableEq, Repr

structure SerializedNetworkMessage where
  bytes : List Nat
  deriving DecidableEq, Repr

inductive SerializedMessageType where
  | NonChunked (msg : SerializedNetworkMessage)
  | Chunked (bytes : List (List Nat))
  deriving DecidableEq, Repr

inductive SendInputsError where
  | Disconnected
  | SocketFailure
  deriving DecidableEq, Repr

/-! ## Little-endian byte helpers (`u16::to_le_bytes` etc.) -/

def le16 (n : Nat) : List Nat := [n % 256, n / 256 % 256]

def le32 (n : Nat) : List Nat :=
  [n % 256, n / 256 % 256, n / 2 ^ 16 % 256, n / 2 ^ 24 % 256]

def from_le16 (a b : Nat) : Nat := a % 256 + 256 * (b % 256)

def from_le32 (a b c d : Nat) : Nat :=
  a % 256 + 256 * (b % 256) + 2 ^ 16 * (c % 256) + 2 ^ 24 * (d % 256)

/-- The fixed-size receive buffer: a datagram of `l` bytes lands at the front
of a zeroed `MAX_UDP_PAYLOAD_LEN`-byte `MsgBuffer`. -/
def padBuffer (l : List Nat) : List Nat :=
  l ++ List.replicate (MAX_UDP_PAYLOAD_LEN - l.length) 0

/-! ## Discriminants: `From<NetworkMessage> for u8` and `TryFrom<u8>` -/

def NetworkMessage.toDisc : NetworkMessage → Nat
  | .GetServerPlayerIDs => 0
  | .GetOwnServerPlayerID => 1
  | .ClientSentWorld _ => 2
  | .ClientSentPlayerInputs _ => 3
  | .ServerSideAck _ => 4
  | .ClientSideAck _ => 5
  | .ServerSentPlayerIDs _ => 6
  | .ServerSentPlayerInputs _ => 7
  | .ServerSentWorld _ => 8
  | .ClientConnectToOtherWorld _ => 9
  | .ServerRequestHostForWorldData => 10

def NetworkMessage.try_from (value : Nat) : Except String NetworkMessage :=
  match value with
  | 0 => .ok .GetServerPlayerIDs
  | 1 => .ok .GetOwnServerPlayerID
  | 2 => .ok (.ClientSentWorld [])
  | 3 => .ok (.ClientSentPlayerInputs ⟨[]⟩)
  | 4 => .ok (.ServerSideAck 0)
  | 5 => .ok (.ClientSideAck 0)
  | 6 => .ok (.ServerSentPlayerIDs [])
  | 7 => .ok (.ServerSentPlayerInputs ⟨[]⟩)
  | 8 => .ok (.ServerSentWorld [])
  | 9 => .ok (.ClientConnectToOtherWorld 0)
  | 10 => .ok .ServerRequestHostForWorldData
  | _ => .error "Invalid network msg u8 type ^^"

/-! ## PacketParser (src/type_impl.rs) -/

/-- `PacketParser::parse_header`.  Its callers always hand it the full
508-byte `MsgBuffer`, so the fixed-position reads are in bounds and are
modelled with `getD`. -/
def parse_header (bytes : List Nat) : Except String MessageHeader :=
  let reliable := decide (0 < bytes.getD RELIABLE_FLAG_BYTE_POS 0)
  let seq_num :=
    if reliable then
      some (from_le16 (bytes.getD SEQ_NUM_BYTE_POS 0) (bytes.getD (SEQ_NUM_BYTE_POS + 1) 0))
    else none
  let amt_of_chunks :=
    from_le16 (bytes.getD AMT_OF_CHUNKS_BYTE_POS 0) (bytes.getD (AMT_OF_CHUNKS_BYTE_POS + 1) 0)
  let base_chunk_seq_num :=
    from_le16 (bytes.getD BASE_CHUNK_SEQ_NUM_BYTE_POS 0)
      (bytes.getD (BASE_CHUNK_SEQ_NUM_BYTE_POS + 1) 0)
  let is_chunked := decide (0 < amt_of_chunks)
  let discriminator := bytes.getD DISCRIMINANT_BIT_START_POS 0
  match NetworkMessage.try_from discriminator with
  | .error e => .error e
  | .ok message =>
      .ok { reliable := reliable, seq_num := seq_num, amt_of_chunks := amt_of_chunks,
            base_chunk_seq_num := base_chunk_seq_num, is_chunked := is_chunked,
            message := message }

/-- `parse_player_inputs` (free function in src/type_impl.rs). -/
def parse_player_inputs (byte : Nat) : List PlayerInput :=
  (if (byte >>> PLAYER_MOVE_LEFT_BYTE_POS) % 2 > 0 then [PlayerInput.Left] else []) ++
  (if (byte >>> PLAYER_MOVE_RIGHT_BYTE_POS) % 2 > 0 then [PlayerInput.Right] else []) ++
  (if (byte >>> PLAYER_SHOOT_BYTE_POS) % 2 > 0 then [PlayerInput.Shoot] else [])

/-- The input-reading loop of `PacketParser::parse_data`: starting at byte
offset `off`, read `n` entries of 4 frame bytes (LE `u32`) plus 1 input byte.
The Rust slice `data[offset..offset + 4]` and index `data[offset]` panic when
they run past the end of `data`; that is the `panicked` branch. -/
def parseInputsLoop (data : List Nat) : Nat → Nat → RustResult (List NetworkedPlayerInput)
  | _, 0 => .ok []
  | off, n + 1 =>
      if off + 4 < data.length then
        let frame := from_le32 (data.getD off 0) (data.getD (off + 1) 0)
          (data.getD (off + 2) 0) (data.getD (off + 3) 0)
        let player_inputs := parse_player_inputs (data.getD (off + 4) 0)
        match parseInputsLoop data (off + 5) n with
        | .panicked => .panicked
        | .ok rest => .ok (⟨player_inputs, frame⟩ :: rest)
      else
        .panicked

/-- `PacketParser::parse_data`.  `data` is the payload with the header already
removed. -/
def parse_data (header : MessageHeader) (data : List Nat) :
    RustResult (Except String DeserializedMessage) :=
  let wrap : NetworkMessage → RustResult (Except String DeserializedMessage) := fun m =>
    if header.reliable then
      .ok (.ok { reliable := true, seq_num := header.seq_num, msg := m })
    else
      .ok (.ok { reliable := false, seq_num := none, msg := m })
  match header.message with
  | .GetServerPlayerIDs | .GetOwnServerPlayerID | .ServerRequestHostForWorldData =>
      wrap header.message
  | .ClientSentWorld _ => wrap (.ClientSentWorld data)
  | .ClientSentPlayerInputs _ =>
      if 0 < data.length then
        match parseInputsLoop data 1 (data.getD 0 0) with
        | .panicked => .panicked
        | .ok inputs => wrap (.ClientSentPlayerInputs ⟨inputs⟩)
      else .panicked
  | .ServerSentPlayerInputs _ =>
      if 0 < data.length then
        match parseInputsLoop data 1 (data.getD 0 0) with
        | .panicked => .panicked
        | .ok inputs => wrap (.ServerSentPlayerInputs ⟨inputs⟩)
      else .panicked
  | .ClientConnectToOtherWorld _ =>
      if 0 < data.length then wrap (.ClientConnectToOtherWorld (data.getD 0 0))
      else .panicked
  | .ServerSideAck _ =>
      if data.length < 2 then .ok (.error "Insufficient data for Ack message")
      else wrap (.ServerSideAck (from_le16 (data.getD 0 0) (data.getD 1 0)))
  | .ClientSideAck _ =>
      if data.length < 2 then .ok (.error "Insufficient data for Ack message")
      else wrap (.ClientSideAck (from_le16 (data.getD 0 0) (data.getD 1 0)))
  | .ServerSentPlayerIDs _ =>
      if 0 < data.length then
        let amt := data.getD 0 0
        if amt + 1 ≤ data.length then
          wrap (.ServerSentPlayerIDs ((data.drop 1).take amt))
        else .panicked
      else .panicked
  | .ServerSentWorld _ => wrap (.ServerSentWorld data)

/-- `MsgBuffer::parse_on_server`.  The chunk branch calls
`header.seq_num.unwrap()`, which panics when the datagram is chunked but not
flagged reliable. -/
def parse_on_server (bytes : List Nat) :
    RustResult (Except String DeserializedMessageType) :=
  if bytes.length = 0 then .ok (.error "Empty buffer") else
  match parse_header bytes with
  | .error e => .ok (.error e)
  | .ok header =>
      if header.is_chunked then
        match header.seq_num with
        | none => .panicked
        | some s =>
            .ok (.ok (.ChunkOfMessage
              { seq_num := s, base_seq_num := header.base_chunk_seq_num,
                amt_of_chunks := header.amt_of_chunks, data_bytes := bytes }))
      else
        match parse_data header (bytes.drop DATA_BIT_START_POS) with
        | .panicked => .panicked
        | .ok (.error e) => .ok (.error e)
        | .ok (.ok dm) => .ok (.ok (.NonChunked dm))

/-- `MsgBuffer::parse_on_client` — its body is identical to
`parse_on_server` apart from a debug-only assertion on the message direction. -/
def parse_on_client (bytes : List Nat) :
    RustResult (Except String DeserializedMessageType) :=
  if bytes.length = 0 then .ok (.error "Empty buffer") else
  match parse_header bytes with
  | .error e => .ok (.error e)
  | .ok header =>
      if header.is_chunked then
        match header.seq_num with
        | none => .panicked
        | some s =>
            .ok (.ok (.ChunkOfMessage
              { seq_num := s, base_seq_num := header.base_chunk_seq_num,
                amt_of_chunks := header.amt_of_chunks, data_bytes := bytes }))
      else
        match parse_data header (bytes.drop DATA_BIT_START_POS) with
        | .panicked => .panicked
        | .ok (.error e) => .ok (.error e)
        | .ok (.ok dm) => .ok (.ok (.NonChunked dm))

/-! ## Serialization (src/type_impl.rs) -/

/-- `NetworkMessage::pack_player_inputs`. -/
def pack_player_inputs (inputs : List PlayerInput) : Nat :=
  inputs.foldl
    (fun res i =>
      match i with
      | .Left => res ||| (1 <<< PLAYER_MOVE_LEFT_BYTE_POS)
      | .Right => res ||| (1 <<< PLAYER_MOVE_RIGHT_BYTE_POS)
      | .Shoot => res ||| (1 <<< PLAYER_SHOOT_BYTE_POS))
    0

/-- The bytes pushed for the salt, reliable flag and seq-num at the start of
`may_overflow_udp_packet_serialize` (the salt stands in for the random byte). -/
def headerPrefix (salt : Nat) (msg_type : NetworkMessageType) : List Nat :=
  match msg_type with
  | .ResendUntilAck s | .SendOnceButReceiveAck s => [salt, 1] ++ le16 s
  | .SendOnce => [salt, 0, 0, 0]

/-- `NetworkMessage::push_non_chunked`: four zero bytes for `base-seq-num` and
`total-chunks`. -/
def push_non_chunked : List Nat := [0, 0, 0, 0]

/-- One serialized input entry: 4 LE frame bytes (`u32`) and one packed
input byte. -/
def encodeEntry (input : NetworkedPlayerInput) : List Nat :=
  le32 (input.frame % 2 ^ 32) ++ [pack_player_inputs input.inputs]

def encodeEntries (l : List NetworkedPlayerInput) : List Nat :=
  l.flatMap encodeEntry

/-- The serialized `BufferedNetworkedPlayerInputs` payload: count byte
(`len as u8`), then the entries. -/
def encodeInputsPayload (inp : BufferedNetworkedPlayerInputs) : List Nat :=
  inp.buffered_inputs.length % 256 :: encodeEntries inp.buffered_inputs

/-- The chunk list built by `NetworkMessage::chunk_message` for the reliable
(`ResendUntilAck`) case, with `base` the seq-num of the first chunk. -/
def chunk_bytes (salt disc : Nat) (data : List Nat) (base : Nat) : List (List Nat) :=
  let amt := (data.length + MAX_UDP_PAYLOAD_DATA_LENGTH - 1) / MAX_UDP_PAYLOAD_DATA_LENGTH
  (List.range amt).map fun i =>
    [salt, 1] ++ le16 ((base + i % 2 ^ 16) % 2 ^ 16) ++ le16 base ++ le16 (amt % 2 ^ 16) ++
      [disc] ++ ((data.drop (i * MAX_UDP_PAYLOAD_DATA_LENGTH)).take MAX_UDP_PAYLOAD_DATA_LENGTH)

/-- `NetworkMessage::chunk_message`: panics for the unreliable send kinds. -/
def chunk_message (salt disc : Nat) (data : List Nat) (msg_type : NetworkMessageType) :
    RustResult (List (List Nat)) :=
  match msg_type with
  | .ResendUntilAck s => .ok (chunk_bytes salt disc data s)
  | .SendOnce | .SendOnceButReceiveAck _ => .panicked

/-- `NetworkMessage::may_overflow_udp_packet_serialize`, with `salt` standing
in for the random byte. -/
def may_overflow_udp_packet_serialize (salt : Nat) (m : NetworkMessage)
    (msg_type : NetworkMessageType) : RustResult SerializedMessageType :=
  let hdr := headerPrefix salt msg_type
  match m with
  | .ClientSentWorld sim =>
      if MAX_UDP_PAYLOAD_DATA_LENGTH < sim.length then
        match chunk_message salt 2 sim msg_type with
        | .panicked => .panicked
        | .ok chunks => .ok (.Chunked chunks)
      else
        .ok (.NonChunked ⟨hdr ++ push_non_chunked ++ [2] ++ sim⟩)
  | .ServerSentWorld sim =>
      if MAX_UDP_PAYLOAD_DATA_LENGTH < sim.length then
        match chunk_message salt 8 sim msg_type with
        | .panicked => .panicked
        | .ok chunks => .ok (.Chunked chunks)
      else
        .ok (.NonChunked ⟨hdr ++ push_non_chunked ++ [8] ++ sim⟩)
  | .ClientSentPlayerInputs inp =>
      .ok (.NonChunked ⟨hdr ++ push_non_chunked ++ [3] ++ encodeInputsPayload inp⟩)
  | .ServerSentPlayerInputs inp =>
      .ok (.NonChunked ⟨hdr ++ push_non_chunked ++ [7] ++ encodeInputsPayload inp⟩)
  | .ServerSideAck s =>
      .ok (.NonChunked ⟨hdr ++ push_non_chunked ++ [4] ++ le16 s⟩)
  | .ClientSideAck s =>
      .ok (.NonChunked ⟨hdr ++ push_non_chunked ++ [5] ++ le16 s⟩)
  | .ServerSentPlayerIDs ids =>
      .ok (.NonChunked ⟨hdr ++ push_non_chunked ++ [6] ++ (ids.length % 256 :: ids)⟩)
  | .ClientConnectToOtherWorld id =>
      .ok (.NonChunked ⟨hdr ++ push_non_chunked ++ [9] ++ [id]⟩)
  | .GetServerPlayerIDs =>
      .ok (.NonChunked ⟨hdr ++ push_non_chunked ++ [0]⟩)
  | .GetOwnServerPlayerID =>
      .ok (.NonChunked ⟨hdr ++ push_non_chunked ++ [1]⟩)
  | .ServerRequestHostForWorldData =>
      .ok (.NonChunked ⟨hdr ++ push_non_chunked ++ [10]⟩)

/-- `NetworkMessage::serialize` — identical to
`may_overflow_udp_packet_serialize` up to a debug-only length assertion. -/
def NetworkMessage.serialize (salt : Nat) (m : NetworkMessage)
    (msg_type : NetworkMessageType) : RustResult SerializedMessageType :=
  may_overflow_udp_packet_serialize salt m msg_type

/-! ## ChunkedMessageCollector (src/type_impl.rs)

The source keeps one `Vec<ChunkOfMessage>` slot per possible base seq-num;
the collector is modelled as that family of slots, and the body of the
`try_combine` loop for a single slot as `try_combine_slot`. -/

structure ChunkedMessageCollector where
  msgs : Nat → List ChunkOfMessage

def ChunkedMessageCollector.empty : ChunkedMessageCollector := ⟨fun _ => []⟩

/-- `ChunkedMessageCollector::collect`: push the chunk onto the slot indexed
by its base seq-num. -/
def ChunkedMessageCollector.collect (c : ChunkedMessageCollector) (chunk : ChunkOfMessage) :
    ChunkedMessageCollector :=
  ⟨fun i => if i = chunk.base_seq_num then c.msgs i ++ [chunk] else c.msgs i⟩

/-- The sort key of `msg.sort_by_key(|chunk| chunk.seq_num)`. -/
def seqLe (a b : ChunkOfMessage) : Prop := a.seq_num ≤ b.seq_num

instance : DecidableRel seqLe := fun a b => Nat.decLe a.seq_num b.seq_num

instance : IsTotal ChunkOfMessage seqLe := ⟨fun a b => Nat.le_total a.seq_num b.seq_num⟩

instance : IsTrans ChunkOfMessage seqLe := ⟨fun _ _ _ h h' => Nat.le_trans h h'⟩

/-- The body of the `try_combine` loop for one slot: stable-sort by seq-num,
test completeness (`last.seq_num == base.wrapping_add(amt - 1)` in `u16`
arithmetic, and `amt == len`), then reparse the concatenated payloads.  The
arms of the source that merely log and move on yield `none`. -/
def try_combine_slot (msg : List ChunkOfMessage) : RustResult (Option DeserializedMessage) :=
  match List.insertionSort seqLe msg with
  | [] => .ok none
  | first :: rest =>
      let last := (first :: rest).getLast (List.cons_ne_nil _ _)
      if last.seq_num =
            (last.base_seq_num + (last.amt_of_chunks + (2 ^ 16 - 1)) % 2 ^ 16) % 2 ^ 16 ∧
          last.amt_of_chunks = (first :: rest).length then
        let total_data_bytes :=
          (first :: rest).flatMap fun chunk => chunk.data_bytes.drop DATA_BIT_START_POS
        match parse_header first.data_bytes with
        | .error _ => .ok none
        | .ok header =>
            match parse_data header total_data_bytes with
            | .panicked => .panicked
            | .ok (.error _) => .ok none
            | .ok (.ok dm) => .ok (some dm)
      else .ok none

/-! ## InputBuffer (src/input_buffer.rs) -/

/-- `PlayerInputs`: the fixed two-slot array is a list of length
`MAX_PLAYER_COUNT`. -/
structure PlayerInputs where
  inputs : List (Option (List PlayerInput))
  frame : Nat
  deriving DecidableEq, Repr

def PlayerInputs.new (frame : Nat) : PlayerInputs := ⟨[none, none], frame⟩

/-- `PlayerInputs::insert_player_input`. -/
def PlayerInputs.insert_player_input (pi : PlayerInputs) (input : List PlayerInput)
    (player_id : PlayerID) : PlayerInputs :=
  { pi with inputs := pi.inputs.set player_id.idx (some input) }

/-- `PlayerInputs::is_verified`. -/
def PlayerInputs.is_verified (pi : PlayerInputs) (local_player : PlayerID)
    (player_count : Nat) : Bool :=
  let amt := pi.inputs.enum.countP fun p =>
    (decide (p.1 < player_count) && p.2.isSome) || decide (p.1 = local_player.idx)
  amt == player_count

structure InputBuffer where
  input_frames : List PlayerInputs
  last_verified_inputs : List (Option (List PlayerInput))
  player_count : Nat
  local_player : PlayerID
  deriving DecidableEq, Repr

def InputBuffer.new : InputBuffer := ⟨[], [none, none], 1, .Player1⟩

/-- The `while self.input_frames.back().map_or(0, |pi| pi.frame) < frame`
loop of the insert operations: append empty `PlayerInputs` until the back
frame reaches `frame`. -/
def extendBack (frames : List PlayerInputs) (frame : Nat) : List PlayerInputs :=
  match frames.getLast? with
  | none => if 0 < frame then [PlayerInputs.new frame] else frames
  | some back => frames ++ (List.range' (back.frame + 1) (frame - back.frame)).map PlayerInputs.new

/-- `iter_mut().find(|pi| pi.frame == frame)` followed by a mutation: update
the first entry with that frame. -/
def updateFirst (l : List PlayerInputs) (frame : Nat) (f : PlayerInputs → PlayerInputs) :
    List PlayerInputs :=
  match l with
  | [] => []
  | x :: xs => if x.frame = frame then f x :: xs else x :: updateFirst xs frame f

/-- `Vec::insert` at a position. -/
def insertAt (n : Nat) (x : PlayerInputs) (l : List PlayerInputs) : List PlayerInputs :=
  l.take n ++ x :: l.drop n

/-- `partition_point(|pi| pi.frame < frame)`: the source's binary search
assumes the deque is partitioned by the predicate (it is kept sorted), where
it returns the length of the satisfying prefix. -/
def partitionPointLt (l : List PlayerInputs) (frame : Nat) : Nat :=
  (l.takeWhile fun pi => decide (pi.frame < frame)).length

/-- Shared tail of the two insert operations: grow the deque, then update the
entry with this frame or insert a fresh one at the partition point. -/
def insertInputAt (b : InputBuffer) (inp : List PlayerInput) (frame : Nat)
    (player_id : PlayerID) : InputBuffer :=
  let l := extendBack b.input_frames frame
  if l.any fun pi => pi.frame == frame then
    { b with input_frames := updateFirst l frame fun pi => pi.insert_player_input inp player_id }
  else
    let new_inputs := (PlayerInputs.new frame).insert_player_input inp player_id
    { b with input_frames := insertAt (partitionPointLt l frame) new_inputs l }

/-- `InputBuffer::insert_curr_player_inp` (release semantics: the
`debug_assert!(frame != 0)` is compiled out). -/
def InputBuffer.insert_curr_player_inp (b : InputBuffer) (inp : List PlayerInput)
    (frame : Nat) : InputBuffer :=
  insertInputAt b inp frame b.local_player

def PlayerID.other : PlayerID → PlayerID
  | .Player1 => .Player2
  | .Player2 => .Player1

/-- `InputBuffer::insert_other_player_inp`. -/
def InputBuffer.insert_other_player_inp (b : InputBuffer) (inp : List PlayerInput)
    (frame : Nat) : InputBuffer :=
  match b.input_frames.find? fun fi => (fi.inputs.getD b.local_player.idx none).isSome with
  | some first_local =>
      if frame < first_local.frame then b else insertInputAt b inp frame b.local_player.other
  | none => insertInputAt b inp frame b.local_player.other

/-- `InputBuffer::pop_next_verified_frame`, returning the popped head (if
any) together with the updated buffer. -/
def InputBuffer.pop_next_verified_frame (b : InputBuffer) : Option PlayerInputs × InputBuffer :=
  match b.input_frames with
  | [] => (none, b)
  | front :: rest =>
      if front.is_verified b.local_player b.player_count then
        (some front, { b with input_frames := rest, last_verified_inputs := front.inputs })
      else (none, b)

/-! ## Association-list counterparts of the `HashMap` operations -/

/-- `HashMap::remove` / the erasure part of it: drop the entry with this key. -/
def eraseKey (k : Nat) (l : List (Nat × α)) : List (Nat × α) :=
  l.eraseP fun p => p.1 == k

/-- `HashMap::insert`: replace any entry with this key. -/
def insertKey (k : Nat) (v : α) (l : List (Nat × α)) : List (Nat × α) :=
  eraseKey k l ++ [(k, v)]

/-! ## Server-side ack handling (src/server.rs), per source address -/

/-- The per-client slice of the `Server` state that the ack path touches. -/
structure ServerPeerState where
  non_input_pending_acks : List (Nat × List Nat)
  unack_input_seq_nums_to_frame : List (Nat × Nat)
  unack_input_buffer : BufferedNetworkedPlayerInputs
  deriving DecidableEq, Repr

/-- `BufferedNetworkedPlayerInputs::discard_acknowledged_frames`:
`retain(|input| input.frame > frame)`. -/
def BufferedNetworkedPlayerInputs.discard_acknowledged_frames
    (b : BufferedNetworkedPlayerInputs) (frame : Nat) : BufferedNetworkedPlayerInputs :=
  ⟨b.buffered_inputs.filter fun input => decide (frame < input.frame)⟩

/-- `Server::handle_player_input_ack`. -/
def Server.handle_player_input_ack (st : ServerPeerState) (seq_num : Nat) : ServerPeerState :=
  match st.unack_input_seq_nums_to_frame.lookup seq_num with
  | some frame =>
      { st with
        unack_input_seq_nums_to_frame := eraseKey seq_num st.unack_input_seq_nums_to_frame,
        unack_input_buffer := st.unack_input_buffer.discard_acknowledged_frames frame }
  | none => st

/-- `Server::handle_clients_ack`, for a client whose tables exist: first try
to remove from the general pending table, and only on a miss fall through to
the input-ack path. -/
def Server.handle_clients_ack (st : ServerPeerState) (seq_num : Nat) : ServerPeerState :=
  if (st.non_input_pending_acks.lookup seq_num).isSome then
    { st with non_input_pending_acks := eraseKey seq_num st.non_input_pending_acks }
  else
    Server.handle_player_input_ack st seq_num

/-- `Server::send_ack`: the acknowledgement datagram the server emits. -/
def Server.send_ack (salt seq_num : Nat) : RustResult (List Nat) :=
  match NetworkMessage.serialize salt (.ServerSideAck seq_num) .SendOnce with
  | .ok (.NonChunked m) => .ok m.bytes
  | _ => .panicked

/-- `Server::process_message`, restricted to the arm relevant to the ack
claims; the remaining arms relay data to other peers and do not touch this
peer's ack tables. -/
def Server.process_message (st : ServerPeerState) (m : NetworkMessage) : ServerPeerState :=
  match m with
  | .ClientSideAck seq_num => Server.handle_clients_ack st seq_num
  | _ => st

/-- `Server::handle_message`: process, then ack the datagram's own seq-num
when it carried one. -/
def Server.handle_message (salt : Nat) (st : ServerPeerState) (msg : DeserializedMessage) :
    ServerPeerState × List (RustResult (List Nat)) :=
  match msg.seq_num with
  | some seq_num => (Server.process_message st msg.msg, [Server.send_ack salt seq_num])
  | none => (Server.process_message st msg.msg, [])

/-! ## Client-side connection state (src/client_conn.rs) -/

structure ConnectionServerState where
  sequence_number : Nat
  pending_acks : List (Nat × List Nat)
  unack_input_buffer : BufferedNetworkedPlayerInputs
  unack_input_seq_nums_to_frame : List (Nat × Nat)
  deriving DecidableEq, Repr

/-- `ConnectionServer::handle_ack`: remove the acked entry from the general
pending table; the input tables are not consulted. -/
def ConnectionServer.handle_ack (st : ConnectionServerState) (acked_seq_num : Nat) :
    ConnectionServerState :=
  { st with pending_acks := eraseKey acked_seq_num st.pending_acks }

/-- `ConnectionServer::send_ack`: the acknowledgement datagram the client
emits, serialized `ResendUntilAck` with the acked seq-num as its own. -/
def ConnectionServer.send_ack (salt seq_num : Nat) : RustResult (List Nat) :=
  match NetworkMessage.serialize salt (.ClientSideAck seq_num) (.ResendUntilAck seq_num) with
  | .ok (.NonChunked m) => .ok m.bytes
  | _ => .panicked

/-- `ConnectionServer::send_player_inputs`: on success returns the updated
state and the datagram that was sent. -/
def ConnectionServer.send_player_inputs (salt : Nat) (st : ConnectionServerState)
    (inputs : NetworkedPlayerInput) :
    RustResult (Except SendInputsError (ConnectionServerState × List Nat)) :=
  if st.unack_input_buffer.buffered_inputs.length * 5 < MAX_UDP_PAYLOAD_DATA_LENGTH - 1 then
    .ok (.error .Disconnected)
  else
    let buf : BufferedNetworkedPlayerInputs := ⟨st.unack_input_buffer.buffered_inputs ++ [inputs]⟩
    let st' :=
      { st with
        unack_input_buffer := buf,
        unack_input_seq_nums_to_frame :=
          insertKey st.sequence_number inputs.frame st.unack_input_seq_nums_to_frame }
    match NetworkMessage.serialize salt (.ClientSentPlayerInputs buf)
        (.SendOnceButReceiveAck st.sequence_number) with
    | .ok (.NonChunked m) => .ok (.ok (st', m.bytes))
    | _ => .panicked

/-! ## Retransmission sweeps (src/server.rs and src/client_conn.rs)

A pending entry is `(seq_num, (sent_time_ms, bytes))`; the sweep takes the
current time and returns the new pending table together with the seq-nums
that were retransmitted. -/

/-- `Server::handle_retransmissions`.  Entries past `RETRY_TIMEOUT` are
retransmitted with their `sent_time` refreshed to `now`.  The final discard
sweep in the source is built on an iterator that is never consumed
(`let _ = ...iter_mut().map(...)`), so it has no effect. -/
def Server.handle_retransmissions (now : Nat) (pending : List (Nat × Nat × List Nat)) :
    List (Nat × Nat × List Nat) × List Nat :=
  let to_retry := (pending.filter fun e => decide (serverRETRY_TIMEOUT < now - e.2.1)).map
    fun e => e.1
  let refreshed := pending.map fun e =>
    if serverRETRY_TIMEOUT < now - e.2.1 then (e.1, now, e.2.2) else e
  (refreshed, to_retry)

/-- `ConnectionServer::handle_retransmissions`: collect the entries past
`RETRY_TIMEOUT`, retain only entries younger than
`RETRY_TIMEOUT * MAX_RETRIES` (ages measured from the last refresh), then
retransmit the collected entries that survived, refreshing their times. -/
def ConnectionServer.handle_retransmissions (now : Nat)
    (pending : List (Nat × Nat × List Nat)) : List (Nat × Nat × List Nat) × List Nat :=
  let to_retry := (pending.filter fun e => decide (clientRETRY_TIMEOUT < now - e.2.1)).map
    fun e => e.1
  let kept := pending.filter fun e =>
    decide (now - e.2.1 < clientRETRY_TIMEOUT * clientMAX_RETRIES)
  let refreshed := kept.map fun e => if to_retry.contains e.1 then (e.1, now, e.2.2) else e
  (refreshed, to_retry.filter fun s => (kept.lookup s).isSome)

/-- Run a retransmission sweep at each time in `ticks`, counting the total
number of retransmissions. -/
def sweepRun (sweep : Nat → List (Nat × Nat × List Nat) → List (Nat × Nat × List Nat) × List Nat)
    (ticks : List Nat) (pending : List (Nat × Nat × List Nat)) :
    List (Nat × Nat × List Nat) × Nat :=
  ticks.foldl
    (fun acc now =>
      let r := sweep now acc.1
      (r.1, acc.2 + r.2.length))
    (pending, 0)

/-! ## Statement-side helper definitions for the claims -/

/-- The input lists that the one-byte bitfield can represent: duplicate-free
and in the fixed Left-Right-Shoot order produced by `parse_player_inputs`. -/
def canonicalInputLists : List (List PlayerInput) :=
  [[], [.Left], [.Right], [.Shoot], [.Left, .Right], [.Left, .Shoot], [.Right, .Shoot],
   [.Left, .Right, .Shoot]]

/-- The payload bytes each `NetworkMessage` serializes to (after the
discriminant byte) in the non-chunked case. -/
def payloadOf : NetworkMessage → List Nat
  | .GetServerPlayerIDs | .GetOwnServerPlayerID | .ServerRequestHostForWorldData => []
  | .ClientSentWorld v | .ServerSentWorld v => v
  | .ClientSentPlayerInputs inp | .ServerSentPlayerInputs inp => encodeInputsPayload inp
  | .ServerSideAck s | .ClientSideAck s => le16 s
  | .ServerSentPlayerIDs ids => ids.length % 256 :: ids
  | .ClientConnectToOtherWorld id => [id]

/-- The placeholder message `NetworkMessage::try_from` returns for each
discriminant. -/
def skeletonOf : NetworkMessage → NetworkMessage
  | .GetServerPlayerIDs => .GetServerPlayerIDs
  | .GetOwnServerPlayerID => .GetOwnServerPlayerID
  | .ClientSentWorld _ => .ClientSentWorld []
  | .ClientSentPlayerInputs _ => .ClientSentPlayerInputs ⟨[]⟩
  | .ServerSideAck _ => .ServerSideAck 0
  | .ClientSideAck _ => .ClientSideAck 0
  | .ServerSentPlayerIDs _ => .ServerSentPlayerIDs []
  | .ServerSentPlayerInputs _ => .ServerSentPlayerInputs ⟨[]⟩
  | .ServerSentWorld _ => .ServerSentWorld []
  | .ClientConnectToOtherWorld _ => .ClientConnectToOtherWorld 0
  | .ServerRequestHostForWorldData => .ServerRequestHostForWorldData

/-- The receive-side parser appropriate for a message's direction:
client-to-server kinds are parsed by the server, the rest by the client. -/
def receiveParse (m : NetworkMessage) (buffer : List Nat) :
    RustResult (Except String DeserializedMessageType) :=
  match m with
  | .GetServerPlayerIDs | .GetOwnServerPlayerID | .ClientSentWorld _
  | .ClientSentPlayerInputs _ | .ClientSideAck _ | .ClientConnectToOtherWorld _ =>
      parse_on_server buffer
  | _ => parse_on_client buffer

/-- A message whose payload survives the wire byte-for-byte: world blobs of
exactly `MAX_UDP_PAYLOAD_DATA_LENGTH` bytes (shorter blobs come back
zero-padded to that length), input buffers of at most 99 entries with `u32`
frames and bitfield-representable input lists, byte-valued id lists of at
most 255 entries, and `u16` seq-nums. -/
def WireCanonical : NetworkMessage → Prop
  | .GetServerPlayerIDs | .GetOwnServerPlayerID | .ServerRequestHostForWorldData => True
  | .ClientSentWorld v | .ServerSentWorld v =>
      v.length = MAX_UDP_PAYLOAD_DATA_LENGTH ∧ ∀ b ∈ v, b < 256
  | .ClientSentPlayerInputs inp | .ServerSentPlayerInputs inp =>
      inp.buffered_inputs.length ≤ 99 ∧
      ∀ e ∈ inp.buffered_inputs, e.frame < 2 ^ 32 ∧ e.inputs ∈ canonicalInputLists
  | .ServerSideAck s | .ClientSideAck s => s < 2 ^ 16
  | .ServerSentPlayerIDs ids => ids.length ≤ 255 ∧ ∀ b ∈ ids, b < 256
  | .ClientConnectToOtherWorld id => id < 256

/-- Projection of a `send_player_inputs` outcome onto the resulting buffer
length and datagram size. -/
def sendInputsOutcome
    (r : RustResult (Except SendInputsError (ConnectionServerState × List Nat))) :
    Option (Nat × Nat) :=
  match r with
  | .ok (.ok (st, bytes)) => some (st.unack_input_buffer.buffered_inputs.length, bytes.length)
  | _ => none

/-- The specification's completeness condition for the head `FrameInputs`:
both slots filled, or a single-player session with the local slot filled, or
the local slot absent but every remote slot of the session filled. -/
def specComplete (front : PlayerInputs) (local_player : PlayerID) (player_count : Nat) : Prop :=
  (∀ i < MAX_PLAYER_COUNT, (front.inputs.getD i none).isSome = true) ∨
  (player_count = 1 ∧ (front.inputs.getD local_player.idx none).isSome = true) ∨
  ((front.inputs.getD local_player.idx none).isSome = false ∧
    ∀ i < player_count, i ≠ local_player.idx → (front.inputs.getD i none).isSome = true)

/-- Frames of the buffered entries strictly ascend. -/
def Asc (l : List PlayerInputs) : Prop :=
  List.Pairwise (fun a b : PlayerInputs => a.frame < b.frame) l

/-- An insertion into the input buffer by either side. -/
inductive BufOp where
  | localIns (inp : List PlayerInput) (frame : Nat)
  | remoteIns (inp : List PlayerInput) (frame : Nat)

def applyOp (b : InputBuffer) : BufOp → InputBuffer
  | .localIns inp frame => b.insert_curr_player_inp inp frame
  | .remoteIns inp frame => b.insert_other_player_inp inp frame

/-- The `ChunkOfMessage` record the receive path produces for the `i`-th
chunk of a chunked world message with first seq-num `base` (in range, so the
`u16` wrapping is invisible). -/
def chunkRecord (salt base amt : Nat) (p : List Nat) (i : Nat) : ChunkOfMessage :=
  { seq_num := base + i, base_seq_num := base, amt_of_chunks := amt,
    data_bytes :=
      padBuffer ([salt, 1] ++ le16 (base + i) ++ le16 base ++ le16 amt ++ [8] ++
        ((p.drop (i * MAX_UDP_PAYLOAD_DATA_LENGTH)).take MAX_UDP_PAYLOAD_DATA_LENGTH)) }

/-- The serialized bytes a non-chunked message produces (salt, reliable flag
and seq-num prefix, zero base-seq and chunk-count, discriminant, payload). -/
def serializedBytesOf (salt : Nat) (m : NetworkMessage) (t : NetworkMessageType) : List Nat :=
  headerPrefix salt t ++ push_non_chunked ++ [m.toDisc] ++ payloadOf m

def parsedOf (m : NetworkMessage) (t : NetworkMessageType) : DeserializedMessage :=
  match t with
  | .ResendUntilAck s | .SendOnceButReceiveAck s =>
      ⟨true, some (from_le16 (s % 256) (s / 256 % 256)), m⟩
  | .SendOnce => ⟨false, none, m⟩

/-- Strict ordering of chunks by seq-num (used to characterise the sorted
slot). -/
def seqLt (a b : ChunkOfMessage) : Prop := a.seq_num < b.seq_num

instance : IsAntisymm ChunkOfMessage seqLt := ⟨fun _ _ h h' => absurd h' (Nat.lt_asymm h)⟩

/-- The chunk record the client's receive path stores for a chunk datagram
(`default` for non-chunk datagrams). -/
def receivedChunkOf (bytes : List Nat) : ChunkOfMessage :=
  match parse_on_client (padBuffer bytes) with
  | .ok (.ok (.ChunkOfMessage ch)) => ch
  | _ => default

/-! # Auxiliary lemmas -/

lemma from_le16_round (s : Nat) (hs : s < 2 ^ 16) : from_le16 (s % 256) (s / 256 % 256) = s := by
  simp [from_le16]; omega

lemma from_le16_zero : from_le16 0 0 = 0 := rfl

lemma from_le32_round (f : Nat) (hf : f < 2 ^ 32) :
    from_le32 (f % 256) (f / 256 % 256) (f / 2 ^ 16 % 256) (f / 2 ^ 24 % 256) = f := by
  simp [from_le32]; omega

/-! # Claims -/

/-- C5: the code reports `Disconnected` for an *empty* unacked buffer (so the
very first input is refused, nothing is appended, nothing is sent), while
for a buffer of 100 entries — one entry past what fits in one datagram — it
appends and emits a 515-byte datagram, which exceeds `MAX_UDP_PAYLOAD_LEN`.
No entry is evicted on either path.  The guard is the claim's condition
inverted. -/
theorem c5_send_inputs_guard_inverted :
    ConnectionServer.send_player_inputs 0 ⟨0, [], ⟨[]⟩, []⟩ ⟨[], 1⟩ =
      .ok (.error .Disconnected) ∧
    sendInputsOutcome
      (ConnectionServer.send_player_inputs 0
        ⟨0, [], ⟨List.replicate 100 ⟨[], 3⟩⟩, []⟩ ⟨[], 101⟩) = some (101, 515) ∧
    MAX_UDP_PAYLOAD_LEN < 515 :=
  ⟨rfl, rfl, by norm_num [MAX_UDP_PAYLOAD_LEN]⟩

/-- C7: a 508-byte datagram whose discriminant selects a player-inputs
message and whose count byte is 100 drives the input-reading loop past the
end of the 499-byte payload slice, and `parse_data` panics instead of
returning a parse error, on both receive sides. -/
theorem c7_parse_panics_on_count_overflow :
    parse_on_server (padBuffer [0, 0, 0, 0, 0, 0, 0, 0, 3, 100]) = .panicked ∧
    parse_on_client (padBuffer [0, 0, 0, 0, 0, 0, 0, 0, 7, 100]) = .panicked :=
  ⟨rfl, rfl⟩

/-- C6: a pending entry sent at time 0 whose peer never acks is retransmitted
at every one of 121 server sweeps run 17 ms apart (121 > MAX_RETRIES = 120)
and is still pending afterwards, because each retransmission refreshes
`sent_time` and the discard sweep is an unconsumed lazy iterator; on the
client, 9 sweeps run 251 ms apart retransmit 9 > MAX_RETRIES = 8 times and
the entry also survives, because its age is measured from the last refresh. -/
theorem c6_unbounded_retransmission :
    (sweepRun Server.handle_retransmissions ((List.range 121).map fun k => 17 * (k + 1))
        [(0, 0, [42])]).2 = 121 ∧
    serverMAX_RETRIES < 121 ∧
    (sweepRun Server.handle_retransmissions ((List.range 121).map fun k => 17 * (k + 1))
        [(0, 0, [42])]).1 = [(0, 2057, [42])] ∧
    (sweepRun ConnectionServer.handle_retransmissions
        ((List.range 9).map fun k => 251 * (k + 1)) [(0, 0, [42])]).2 = 9 ∧
    clientMAX_RETRIES < 9 ∧
    (sweepRun ConnectionServer.handle_retransmissions
        ((List.range 9).map fun k => 251 * (k + 1)) [(0, 0, [42])]).1 = [(0, 2259, [42])] :=
  ⟨rfl, by norm_num [serverMAX_RETRIES], rfl, rfl, by norm_num [clientMAX_RETRIES], rfl⟩

/-- C3 counterexample: on the client-side sender, an ack for seq-num 4 whose
recorded frame is 1 leaves the unacked input buffer untouched — the entry
with frame 1 ≤ 1 is still there, so the buffer does not contain exactly the
entries with frame > 1. -/
theorem c3_counterexample_client_never_prunes :
    ConnectionServer.handle_ack ⟨0, [], ⟨[⟨[], 1⟩]⟩, [(4, 1)]⟩ 4 =
      ⟨0, [], ⟨[⟨[], 1⟩]⟩, [(4, 1)]⟩ ∧
    ([((4 : Nat), (1 : Nat))].lookup 4 = some 1) ∧
    (⟨[], 1⟩ : NetworkedPlayerInput) ∈
      (ConnectionServer.handle_ack
        ⟨0, [], ⟨[⟨[], 1⟩]⟩, [(4, 1)]⟩ 4).unack_input_buffer.buffered_inputs ∧
    ¬(1 : Nat) < 1 := by
  decide

/-- C3 (amended): on the server's input-send path, an ack for a seq-num whose
recorded frame is `b` leaves the unacked input buffer holding exactly the
entries with frame strictly greater than `b`; the client-side sender's
unacked input buffer is untouched by acks. -/
theorem c3_cumulative_ack_discards_exactly (st : ServerPeerState) (s b : Nat)
    (h : st.unack_input_seq_nums_to_frame.lookup s = some b) :
    (∀ e, e ∈ (Server.handle_player_input_ack st s).unack_input_buffer.buffered_inputs ↔
        e ∈ st.unack_input_buffer.buffered_inputs ∧ b < e.frame) ∧
    ∀ cst : ConnectionServerState,
      (ConnectionServer.handle_ack cst s).unack_input_buffer = cst.unack_input_buffer := by
  refine ⟨fun e => ?_, fun cst => rfl⟩
  simp [Server.handle_player_input_ack, h,
    BufferedNetworkedPlayerInputs.discard_acknowledged_frames, List.mem_filter,
    and_comm]

/-- Witness for C3's theorem at a concrete state. -/
theorem c3_witness :
    (⟨[], 6⟩ : NetworkedPlayerInput) ∈
        (Server.handle_player_input_ack
          ⟨[], [(2, 5)], ⟨[⟨[], 4⟩, ⟨[], 6⟩]⟩⟩ 2).unack_input_buffer.buffered_inputs ↔
      (⟨[], 6⟩ : NetworkedPlayerInput) ∈
        ([⟨[], 4⟩, ⟨[], 6⟩] : List NetworkedPlayerInput) ∧ (5 : Nat) < 6 :=
  (c3_cumulative_ack_discards_exactly ⟨[], [(2, 5)], ⟨[⟨[], 4⟩, ⟨[], 6⟩]⟩⟩ 2 5 rfl).1 ⟨[], 6⟩

/-- C4 counterexample: seq-num 7 is recorded in the *input* seq-num table
(with frame 5), yet handling the ack removes the entry from the general
pending table and releases no input frames — the entry with frame 3 ≤ 5 is
still buffered.  The two stages run in the opposite order from the claim. -/
theorem c4_counterexample_general_first :
    (([((7 : Nat), (5 : Nat))]).lookup 7 = some 5) ∧
    Server.handle_clients_ack ⟨[(7, [9])], [(7, 5)], ⟨[⟨[], 3⟩]⟩⟩ 7 =
      ⟨[], [(7, 5)], ⟨[⟨[], 3⟩]⟩⟩ ∧
    (⟨[], 3⟩ : NetworkedPlayerInput) ∈
      (Server.handle_clients_ack
        ⟨[(7, [9])], [(7, 5)], ⟨[⟨[], 3⟩]⟩⟩ 7).unack_input_buffer.buffered_inputs ∧
    (3 : Nat) ≤ 5 := by
  decide

/-- C4 (amended): the server dispatches an ack in two stages in the order
general-table-first: an ack found in the general reliable pending table
removes exactly that entry and leaves the input tables untouched; only an
ack unmatched there is handed to the input-ack path, which leaves the
general table untouched; no ack ever changes both.  The client-side sender
has a single stage: it removes the entry from its general pending table and
never touches its input tables. -/
theorem c4_two_stage_dispatch (st : ServerPeerState) (s : Nat) :
    ((st.non_input_pending_acks.lookup s).isSome = true →
      Server.handle_clients_ack st s =
        { st with non_input_pending_acks := eraseKey s st.non_input_pending_acks } ∧
      (Server.handle_clients_ack st s).unack_input_buffer = st.unack_input_buffer ∧
      (Server.handle_clients_ack st s).unack_input_seq_nums_to_frame =
        st.unack_input_seq_nums_to_frame) ∧
    ((st.non_input_pending_acks.lookup s).isSome = false →
      (Server.handle_clients_ack st s).non_input_pending_acks = st.non_input_pending_acks ∧
      Server.handle_clients_ack st s = Server.handle_player_input_ack st s) ∧
    ¬((Server.handle_clients_ack st s).non_input_pending_acks ≠ st.non_input_pending_acks ∧
      (Server.handle_clients_ack st s).unack_input_buffer ≠ st.unack_input_buffer) ∧
    ∀ cst : ConnectionServerState,
      (ConnectionServer.handle_ack cst s).pending_acks = eraseKey s cst.pending_acks ∧
      (ConnectionServer.handle_ack cst s).unack_input_buffer = cst.unack_input_buffer ∧
      (ConnectionServer.handle_ack cst s).unack_input_seq_nums_to_frame =
        cst.unack_input_seq_nums_to_frame := by
  refine ⟨fun h => ?_, fun h => ?_, fun h => ?_, fun cst => ⟨rfl, rfl, rfl⟩⟩
  · simp [Server.handle_clients_ack, h]
  · constructor
    · simp only [Server.handle_clients_ack, h, Bool.false_eq_true, if_false,
        Server.handle_player_input_ack]
      cases st.unack_input_seq_nums_to_frame.lookup s <;> rfl
    · simp [Server.handle_clients_ack, h]
  · rcases h with ⟨hgen, hbuf⟩
    by_cases hc : (st.non_input_pending_acks.lookup s).isSome = true
    · refine hbuf ?_
      simp [Server.handle_clients_ack, hc]
    · refine hgen ?_
      simp only [Bool.not_eq_true] at hc
      simp only [Server.handle_clients_ack, hc, Bool.false_eq_true, if_false,
        Server.handle_player_input_ack]
      cases st.unack_input_seq_nums_to_frame.lookup s <;> rfl

/-- Witness for C4's theorem at a concrete state with the seq-num present in
both tables. -/
theorem c4_witness :
    Server.handle_clients_ack ⟨[(7, [9])], [(7, 5)], ⟨[⟨[], 3⟩]⟩⟩ 7 =
      { (⟨[(7, [9])], [(7, 5)], ⟨[⟨[], 3⟩]⟩⟩ : ServerPeerState) with
        non_input_pending_acks := eraseKey 7 [(7, [9])] } ∧
    (Server.handle_clients_ack
        ⟨[(7, [9])], [(7, 5)], ⟨[⟨[], 3⟩]⟩⟩ 7).unack_input_buffer =
      (⟨[(7, [9])], [(7, 5)], ⟨[⟨[], 3⟩]⟩⟩ : ServerPeerState).unack_input_buffer ∧
    (Server.handle_clients_ack
        ⟨[(7, [9])], [(7, 5)], ⟨[⟨[], 3⟩]⟩⟩ 7).unack_input_seq_nums_to_frame =
      (⟨[(7, [9])], [(7, 5)], ⟨[⟨[], 3⟩]⟩⟩ : ServerPeerState).unack_input_seq_nums_to_frame :=
  (c4_two_stage_dispatch ⟨[(7, [9])], [(7, 5)], ⟨[⟨[], 3⟩]⟩⟩ 7).1 rfl

/-- C10: a client ack for seq-num `s` goes out with the reliable flag set and
carries `s` itself as the header seq-num; the server parses it as a reliable
`ClientSideAck s` datagram and replies with `Server.send_ack` for the same
`s`, whose datagram is fire-and-forget (reliable flag 0). -/
theorem c10_ack_asymmetry (saltc salts s : Nat) (st : ServerPeerState) (hs : s < 2 ^ 16) :
    ConnectionServer.send_ack saltc s =
      .ok [saltc, 1, s % 256, s / 256 % 256, 0, 0, 0, 0, 5, s % 256, s / 256 % 256] ∧
    [saltc, 1, s % 256, s / 256 % 256, 0, 0, 0, 0, 5, s % 256, s / 256 % 256].getD
        RELIABLE_FLAG_BYTE_POS 0 = 1 ∧
    from_le16
      ([saltc, 1, s % 256, s / 256 % 256, 0, 0, 0, 0, 5, s % 256, s / 256 % 256].getD
        SEQ_NUM_BYTE_POS 0)
      ([saltc, 1, s % 256, s / 256 % 256, 0, 0, 0, 0, 5, s % 256, s / 256 % 256].getD
        (SEQ_NUM_BYTE_POS + 1) 0) = s ∧
    parse_on_server
        (padBuffer [saltc, 1, s % 256, s / 256 % 256, 0, 0, 0, 0, 5, s % 256, s / 256 % 256]) =
      .ok (.ok (.NonChunked ⟨true, some s, .ClientSideAck s⟩)) ∧
    (Server.handle_message salts st ⟨true, some s, .ClientSideAck s⟩).2 =
      [Server.send_ack salts s] ∧
    Server.send_ack salts s =
      .ok [salts, 0, 0, 0, 0, 0, 0, 0, 4, s % 256, s / 256 % 256] ∧
    [salts, 0, 0, 0, 0, 0, 0, 0, 4, s % 256, s / 256 % 256].getD RELIABLE_FLAG_BYTE_POS 0 = 0 := by
  refine ⟨rfl, rfl, from_le16_round s hs, ?_, rfl, rfl, rfl⟩
  show parse_on_server (padBuffer
    (saltc :: 1 :: (s % 256) :: (s / 256 % 256) :: 0 :: 0 :: 0 :: 0 :: 5 :: (s % 256) ::
      (s / 256 % 256) :: [])) = _
  simp only [padBuffer, List.length_cons, List.length_nil]
  norm_num
  simp only [parse_on_server, parse_header, parse_data, List.getD_cons_zero, List.getD_cons_succ,
    NetworkMessage.try_from, RELIABLE_FLAG_BYTE_POS, AMT_RANDOM_BYTES, SEQ_NUM_BYTE_POS,
    AMT_OF_CHUNKS_BYTE_POS, BASE_CHUNK_SEQ_NUM_BYTE_POS, DISCRIMINANT_BIT_START_POS,
    DATA_BIT_START_POS, MAX_UDP_PAYLOAD_LEN, List.length_cons, List.length_replicate,
    List.drop_succ_cons, List.drop_zero, from_le16_zero, from_le16_round s hs]
  norm_num

/-- Witness for C10's theorem at seq-num 515. -/
theorem c10_witness :
    parse_on_server (padBuffer [0, 1, 515 % 256, 515 / 256 % 256, 0, 0, 0, 0, 5, 515 % 256,
        515 / 256 % 256]) =
      .ok (.ok (.NonChunked ⟨true, some 515, .ClientSideAck 515⟩)) :=
  (c10_ack_asymmetry 0 0 515 ⟨[], [], ⟨[]⟩⟩ (by norm_num)).2.2.2.1

/-- `is_verified` agrees with the specification's completeness condition for
any two-slot entry, provided the local player is one of the session's
players. -/
lemma is_verified_iff_specComplete (o0 o1 : Option (List PlayerInput)) (frame : Nat)
    (lp : PlayerID) (pc : Nat) (hlp : lp.idx < pc) (hpc : pc ≤ 2) :
    (PlayerInputs.is_verified ⟨[o0, o1], frame⟩ lp pc = true ↔
      specComplete ⟨[o0, o1], frame⟩ lp pc) := by
  have hpc2 : pc = 1 ∨ pc = 2 := by
    rcases lp <;> simp [PlayerID.idx] at hlp <;> omega
  rcases hpc2 with h | h <;> subst h <;> rcases lp <;> rcases o0 with _ | a <;>
      rcases o1 with _ | b <;>
    simp [PlayerInputs.is_verified, specComplete, PlayerID.idx, MAX_PLAYER_COUNT,
      List.enum, List.countP, List.countP.go, Nat.lt_succ_iff, Nat.le_succ_iff,
      Nat.lt_one_iff] <;>
    simp [PlayerID.idx] at hlp

/-- C8: `pop_next_verified_frame` removes and returns the head exactly when
the head is complete in the specification's sense, recording the popped
inputs as `last_verified_inputs`; otherwise it returns nothing and leaves
the buffer unchanged. -/
theorem c8_pop_verified (b : InputBuffer) (hlp : b.local_player.idx < b.player_count)
    (hpc : b.player_count ≤ 2) :
    (b.input_frames = [] → b.pop_next_verified_frame = (none, b)) ∧
    ∀ front rest, b.input_frames = front :: rest → front.inputs.length = 2 →
      (specComplete front b.local_player b.player_count →
        b.pop_next_verified_frame =
          (some front, { b with input_frames := rest, last_verified_inputs := front.inputs })) ∧
      (¬specComplete front b.local_player b.player_count →
        b.pop_next_verified_frame = (none, b)) := by
  constructor
  · intro h
    simp [InputBuffer.pop_next_verified_frame, h]
  · intro front rest hhead hlen
    obtain ⟨inputs, frame⟩ := front
    match inputs, hlen with
    | [o0, o1], _ =>
      have hiff := is_verified_iff_specComplete o0 o1 frame b.local_player b.player_count hlp hpc
      constructor
      · intro hsc
        simp [InputBuffer.pop_next_verified_frame, hhead, hiff.mpr hsc]
      · intro hsc
        have hv : PlayerInputs.is_verified ⟨[o0, o1], frame⟩ b.local_player b.player_count
            = false := by
          rcases hv : PlayerInputs.is_verified ⟨[o0, o1], frame⟩ b.local_player b.player_count
          · rfl
          · exact absurd (hiff.mp hv) hsc
        simp [InputBuffer.pop_next_verified_frame, hhead, hv]

/-- Witness for C8's theorem: a two-player buffer whose head has both slots
filled is popped and recorded. -/
theorem c8_witness :
    (⟨[⟨[some [], some []], 3⟩], [none, none], 2, .Player1⟩ :
        InputBuffer).pop_next_verified_frame =
      (some ⟨[some [], some []], 3⟩,
        { (⟨[⟨[some [], some []], 3⟩], [none, none], 2, .Player1⟩ : InputBuffer) with
          input_frames := [], last_verified_inputs := [some [], some []] }) :=
  ((c8_pop_verified ⟨[⟨[some [], some []], 3⟩], [none, none], 2, .Player1⟩
      (by decide) (by decide)).2 ⟨[some [], some []], 3⟩ [] rfl rfl).1
    (Or.inl (by decide))


/-- In a strictly ascending list every element's frame is bounded by the
last entry's frame. -/
lemma asc_le_getLast {l : List PlayerInputs} {bk : PlayerInputs} (h : Asc l)
    (hbk : l.getLast? = some bk) : ∀ a ∈ l, a.frame ≤ bk.frame := by
  induction l with
  | nil => simp at hbk
  | cons x t ih =>
      rcases t with _ | ⟨y, t⟩
      · simp at hbk
        subst hbk
        simp
      · have hbk' : (y :: t).getLast? = some bk := by
          simpa [List.getLast?] using hbk
        have hx : ∀ a ∈ y :: t, x.frame < a.frame := (List.pairwise_cons.mp h).1
        have ih' := ih (List.Pairwise.sublist (List.sublist_cons_self x (y :: t)) h) hbk'
        intro a ha
        rcases List.mem_cons.mp ha with rfl | ha
        · have hmem : bk ∈ y :: t := by
            have := List.mem_getLast?_eq_getLast (l := y :: t) hbk'
            rcases this with ⟨hne, rfl⟩
            exact List.getLast_mem hne
          exact le_of_lt (hx bk hmem)
        · exact ih' a ha

lemma asc_extendBack {l : List PlayerInputs} (f : Nat) (h : Asc l) : Asc (extendBack l f) := by
  rcases hlast : l.getLast? with _ | bk
  · have he : extendBack l f = if 0 < f then [PlayerInputs.new f] else l := by
      unfold extendBack; rw [hlast]
    rcases List.getLast?_eq_none_iff.mp hlast
    rw [he]
    by_cases hf : 0 < f <;> simp [hf, Asc]
  · have he : extendBack l f =
        l ++ (List.range' (bk.frame + 1) (f - bk.frame)).map PlayerInputs.new := by
      unfold extendBack; rw [hlast]
    rw [he]
    unfold Asc
    rw [List.pairwise_append]
    refine ⟨h, ?_, ?_⟩
    · rw [List.pairwise_map]
      exact (List.pairwise_lt_range' _ _ 1).imp (fun hab => hab)
    · intro a ha b hb
      rcases List.mem_map.mp hb with ⟨j, hj, rfl⟩
      have hj' := List.mem_range'.mp hj
      have := asc_le_getLast h hlast a ha
      simp [PlayerInputs.new]
      omega


lemma updateFirst_map_frame (l : List PlayerInputs) (f : Nat) (g : PlayerInputs → PlayerInputs)
    (hg : ∀ pi, (g pi).frame = pi.frame) :
    (updateFirst l f g).map (fun pi => pi.frame) = l.map (fun pi => pi.frame) := by
  induction l with
  | nil => rfl
  | cons x t ih =>
      unfold updateFirst
      by_cases hx : x.frame = f <;> simp [hx, hg, ih]

lemma take_takeWhile_length (l : List PlayerInputs) (q : PlayerInputs → Bool) :
    l.take ((l.takeWhile q).length) = l.takeWhile q := by
  induction l with
  | nil => rfl
  | cons x t ih =>
      by_cases hx : q x <;> simp [List.takeWhile_cons, hx, ih]

lemma drop_takeWhile_length (l : List PlayerInputs) (q : PlayerInputs → Bool) :
    l.drop ((l.takeWhile q).length) = l.dropWhile q := by
  induction l with
  | nil => rfl
  | cons x t ih =>
      by_cases hx : q x <;> simp [List.takeWhile_cons, List.dropWhile_cons, hx, ih]

lemma asc_dropWhile_ge (l : List PlayerInputs) (f : Nat) (h : Asc l) :
    ∀ b ∈ l.dropWhile (fun pi => decide (pi.frame < f)), f ≤ b.frame := by
  induction l with
  | nil => simp
  | cons x t ih =>
      by_cases hx : x.frame < f
      · rw [List.dropWhile_cons_of_pos (by simpa using hx)]
        exact ih (List.pairwise_cons.mp h).2
      · rw [List.dropWhile_cons_of_neg (by simpa using hx)]
        intro b hb
        rcases List.mem_cons.mp hb with rfl | hb
        · omega
        · have := (List.pairwise_cons.mp h).1 b hb
          omega

lemma asc_insertAt (l : List PlayerInputs) (x : PlayerInputs) (h : Asc l)
    (hne : ∀ pi ∈ l, pi.frame ≠ x.frame) :
    Asc (insertAt (partitionPointLt l x.frame) x l) := by
  unfold insertAt partitionPointLt
  rw [take_takeWhile_length, drop_takeWhile_length]
  unfold Asc
  rw [List.pairwise_append]
  refine ⟨List.Pairwise.sublist (List.takeWhile_sublist _) h, ?_, ?_⟩
  · rw [List.pairwise_cons]
    refine ⟨?_, List.Pairwise.sublist (List.dropWhile_sublist _) h⟩
    intro b hb
    have h1 := asc_dropWhile_ge l x.frame h b hb
    have h2 := hne b ((List.dropWhile_sublist _).subset hb)
    omega
  · intro a ha b hb
    have ha' := List.mem_takeWhile_imp ha
    simp at ha'
    rcases List.mem_cons.mp hb with rfl | hb
    · exact ha'
    · have := asc_dropWhile_ge l x.frame h b hb
      omega

lemma asc_insertInputAt (b : InputBuffer) (inp : List PlayerInput) (f : Nat) (pid : PlayerID)
    (h : Asc b.input_frames) : Asc (insertInputAt b inp f pid).input_frames := by
  unfold insertInputAt
  have hl := asc_extendBack f h
  by_cases hany : (extendBack b.input_frames f).any fun pi => pi.frame == f
  · simp only [hany, if_true]
    have : Asc (updateFirst (extendBack b.input_frames f) f
        fun pi => pi.insert_player_input inp pid) := by
      unfold Asc
      rw [← List.pairwise_map (f := fun pi : PlayerInputs => pi.frame)]
      rw [updateFirst_map_frame _ _ (fun pi => pi.insert_player_input inp pid) (fun pi => rfl)]
      rw [List.pairwise_map]
      exact hl
    simpa using this
  · simp only [hany, if_false]
    have hne : ∀ pi ∈ extendBack b.input_frames f, pi.frame ≠ f := by
      intro pi hpi
      by_contra hc
      have : (extendBack b.input_frames f).any (fun pi => pi.frame == f) = true :=
        List.any_eq_true.mpr ⟨pi, hpi, by simpa using hc⟩
      simp [this] at hany
    have := asc_insertAt (extendBack b.input_frames f)
      ((PlayerInputs.new f).insert_player_input inp pid) hl
      (by simpa [PlayerInputs.new, PlayerInputs.insert_player_input] using hne)
    simpa [PlayerInputs.new, PlayerInputs.insert_player_input] using this


lemma asc_insert_curr (b : InputBuffer) (inp : List PlayerInput) (f : Nat)
    (h : Asc b.input_frames) : Asc (b.insert_curr_player_inp inp f).input_frames :=
  asc_insertInputAt b inp f b.local_player h

lemma asc_insert_other (b : InputBuffer) (inp : List PlayerInput) (f : Nat)
    (h : Asc b.input_frames) : Asc (b.insert_other_player_inp inp f).input_frames := by
  unfold InputBuffer.insert_other_player_inp
  rcases hfind : b.input_frames.find? fun fi =>
      (fi.inputs.getD b.local_player.idx none).isSome with _ | fl
  · rw [hfind]
    exact asc_insertInputAt b inp f b.local_player.other h
  · rw [hfind]
    by_cases hlt : f < fl.frame
    · simpa [hlt] using h
    · simpa [hlt] using asc_insertInputAt b inp f b.local_player.other h

lemma asc_foldl (ops : List BufOp) :
    ∀ b : InputBuffer, Asc b.input_frames → Asc ((ops.foldl applyOp b).input_frames) := by
  induction ops with
  | nil => intro b h; exact h
  | cons op t ih =>
      intro b h
      rcases op with ⟨inp, f⟩ | ⟨inp, f⟩
      · exact ih _ (asc_insert_curr b inp f h)
      · exact ih _ (asc_insert_other b inp f h)

/-- C9: for any interleaving of local and remote insertions with arbitrary
frame numbers, starting from the fresh buffer, the frames of the buffered
entries are strictly ascending and contain no duplicates (the insertions
themselves are total functions in release semantics, so none panics). -/
theorem c9_monotonic (ops : List BufOp) :
    List.Pairwise (fun a b : PlayerInputs => a.frame < b.frame)
      ((ops.foldl applyOp InputBuffer.new).input_frames) ∧
    ((ops.foldl applyOp InputBuffer.new).input_frames.map fun pi => pi.frame).Nodup := by
  have h : Asc ((ops.foldl applyOp InputBuffer.new).input_frames) :=
    asc_foldl ops InputBuffer.new (by simp [InputBuffer.new, Asc])
  refine ⟨h, ?_⟩
  have := List.pairwise_map (l := (ops.foldl applyOp InputBuffer.new).input_frames)
    (f := fun pi : PlayerInputs => pi.frame) (R := (· < ·)) |>.mpr h
  exact this.imp Nat.ne_of_lt


lemma parse_pack_canonical :
    ∀ l ∈ canonicalInputLists, parse_player_inputs (pack_player_inputs l) = l := by
  decide

lemma encodeEntry_eq (e : NetworkedPlayerInput) :
    encodeEntry e = e.frame % 2 ^ 32 % 256 :: e.frame % 2 ^ 32 / 256 % 256 ::
      e.frame % 2 ^ 32 / 2 ^ 16 % 256 :: e.frame % 2 ^ 32 / 2 ^ 24 % 256 ::
      [pack_player_inputs e.inputs] := rfl

lemma encodeEntries_cons (e : NetworkedPlayerInput) (t : List NetworkedPlayerInput) :
    encodeEntries (e :: t) = encodeEntry e ++ encodeEntries t := by
  simp [encodeEntries, List.flatMap_cons]

lemma encodeEntries_length (l : List NetworkedPlayerInput) :
    (encodeEntries l).length = 5 * l.length := by
  induction l with
  | nil => rfl
  | cons e t ih => simp [encodeEntries_cons, encodeEntry_eq, ih]; ring

lemma getD_append_offset (l X : List Nat) (j : Nat) :
    (l ++ X).getD (l.length + j) 0 = X.getD j 0 := by
  induction l with
  | nil => simp
  | cons x t ih => simpa [Nat.succ_add] using ih

lemma parseInputsLoop_encode (l : List NetworkedPlayerInput) :
    ∀ front rest : List Nat,
      (∀ e ∈ l, e.frame < 2 ^ 32 ∧ e.inputs ∈ canonicalInputLists) →
      parseInputsLoop (front ++ (encodeEntries l ++ rest)) front.length l.length = .ok l := by
  induction l with
  | nil => intro front rest _; rfl
  | cons e t ih =>
      intro front rest hl
      obtain ⟨⟨hf, hc⟩, hl'⟩ := List.forall_mem_cons.mp hl
      have hfe : e.frame % 2 ^ 32 = e.frame := Nat.mod_eq_of_lt hf
      have hlen : (front ++ (encodeEntries (e :: t) ++ rest)).length =
          front.length + 5 + 5 * t.length + rest.length := by
        simp [encodeEntries_length]; ring
      show parseInputsLoop _ front.length (t.length + 1) = _
      unfold parseInputsLoop
      rw [if_pos (by omega)]
      have hassoc : front ++ (encodeEntries (e :: t) ++ rest) =
          front ++ (encodeEntry e ++ (encodeEntries t ++ rest)) := by
        simp [encodeEntries_cons]
      have hget : ∀ j, (front ++ (encodeEntries (e :: t) ++ rest)).getD (front.length + j) 0 =
          (encodeEntry e ++ (encodeEntries t ++ rest)).getD j 0 := by
        intro j
        rw [hassoc, getD_append_offset]
      have h0 := hget 0
      have h1 := hget 1
      have h2 := hget 2
      have h3 := hget 3
      have h4 := hget 4
      rw [encodeEntry_eq] at h0 h1 h2 h3 h4
      simp only [List.cons_append, List.nil_append, List.getD_cons_zero,
        List.getD_cons_succ] at h0 h1 h2 h3 h4
      rw [Nat.add_zero] at h0
      rw [h0, h1, h2, h3, h4, hfe, from_le32_round e.frame hf, parse_pack_canonical e.inputs hc]
      have hrec : parseInputsLoop (front ++ (encodeEntries (e :: t) ++ rest))
          (front.length + 5) t.length = .ok t := by
        rw [hassoc, show front ++ (encodeEntry e ++ (encodeEntries t ++ rest)) =
          (front ++ encodeEntry e) ++ (encodeEntries t ++ rest) by simp,
          show front.length + 5 = (front ++ encodeEntry e).length by
            simp [encodeEntry_eq]]
        exact ih (front ++ encodeEntry e) rest hl'
      rw [hrec]

lemma try_from_toDisc (m : NetworkMessage) :
    NetworkMessage.try_from m.toDisc = .ok (skeletonOf m) := by
  cases m <;> rfl

lemma receiveParse_eq (m : NetworkMessage) (buf : List Nat) :
    receiveParse m buf = parse_on_server buf := by
  cases m <;> rfl

lemma payloadOf_length_le (m : NetworkMessage) (hm : WireCanonical m) :
    (payloadOf m).length ≤ MAX_UDP_PAYLOAD_DATA_LENGTH := by
  cases m with
  | ClientSentWorld v => simpa [payloadOf] using le_of_eq hm.1
  | ServerSentWorld v => simpa [payloadOf] using le_of_eq hm.1
  | ClientSentPlayerInputs inp =>
      have := hm.1
      simp [payloadOf, encodeInputsPayload, encodeEntries_length, MAX_UDP_PAYLOAD_DATA_LENGTH,
        MAX_UDP_PAYLOAD_LEN, DATA_BIT_START_POS, DISCRIMINANT_BIT_START_POS,
        AMT_OF_CHUNKS_BYTE_POS, BASE_CHUNK_SEQ_NUM_BYTE_POS, SEQ_NUM_BYTE_POS,
        RELIABLE_FLAG_BYTE_POS, AMT_RANDOM_BYTES]
      omega
  | ServerSentPlayerInputs inp =>
      have := hm.1
      simp [payloadOf, encodeInputsPayload, encodeEntries_length, MAX_UDP_PAYLOAD_DATA_LENGTH,
        MAX_UDP_PAYLOAD_LEN, DATA_BIT_START_POS, DISCRIMINANT_BIT_START_POS,
        AMT_OF_CHUNKS_BYTE_POS, BASE_CHUNK_SEQ_NUM_BYTE_POS, SEQ_NUM_BYTE_POS,
        RELIABLE_FLAG_BYTE_POS, AMT_RANDOM_BYTES]
      omega
  | ServerSentPlayerIDs ids =>
      have := hm.1
      simp [payloadOf, MAX_UDP_PAYLOAD_DATA_LENGTH, MAX_UDP_PAYLOAD_LEN, DATA_BIT_START_POS,
        DISCRIMINANT_BIT_START_POS, AMT_OF_CHUNKS_BYTE_POS, BASE_CHUNK_SEQ_NUM_BYTE_POS,
        SEQ_NUM_BYTE_POS, RELIABLE_FLAG_BYTE_POS, AMT_RANDOM_BYTES]
      omega
  | _ => simp [payloadOf, MAX_UDP_PAYLOAD_DATA_LENGTH, MAX_UDP_PAYLOAD_LEN, DATA_BIT_START_POS,
      DISCRIMINANT_BIT_START_POS, AMT_OF_CHUNKS_BYTE_POS, BASE_CHUNK_SEQ_NUM_BYTE_POS,
      SEQ_NUM_BYTE_POS, RELIABLE_FLAG_BYTE_POS, AMT_RANDOM_BYTES, le16]

lemma serialize_shape (salt : Nat) (m : NetworkMessage) (t : NetworkMessageType)
    (hlen : (payloadOf m).length ≤ MAX_UDP_PAYLOAD_DATA_LENGTH) :
    NetworkMessage.serialize salt m t = .ok (.NonChunked ⟨serializedBytesOf salt m t⟩) := by
  cases m <;>
    simp_all [NetworkMessage.serialize, may_overflow_udp_packet_serialize, serializedBytesOf,
      payloadOf, NetworkMessage.toDisc, push_non_chunked, Nat.not_lt.mpr]

lemma parse_on_server_shape (a f s0 s1 d : Nat) (payload : List Nat) :
    parse_on_server (padBuffer (a :: f :: s0 :: s1 :: 0 :: 0 :: 0 :: 0 :: d :: payload)) =
      match NetworkMessage.try_from d with
      | .error e => .ok (.error e)
      | .ok message =>
          match parse_data
              ⟨decide (0 < f), if decide (0 < f) = true then some (from_le16 s0 s1) else none,
                0, 0, false, message⟩
              (payload ++ List.replicate (MAX_UDP_PAYLOAD_DATA_LENGTH - payload.length) 0) with
          | .panicked => .panicked
          | .ok (.error e) => .ok (.error e)
          | .ok (.ok dm) => .ok (.ok (.NonChunked dm)) := by
  have hrep : MAX_UDP_PAYLOAD_LEN -
      (a :: f :: s0 :: s1 :: 0 :: 0 :: 0 :: 0 :: d :: payload).length =
      MAX_UDP_PAYLOAD_DATA_LENGTH - payload.length := by
    simp [MAX_UDP_PAYLOAD_LEN, MAX_UDP_PAYLOAD_DATA_LENGTH, DATA_BIT_START_POS,
      DISCRIMINANT_BIT_START_POS, AMT_OF_CHUNKS_BYTE_POS, BASE_CHUNK_SEQ_NUM_BYTE_POS,
      SEQ_NUM_BYTE_POS, RELIABLE_FLAG_BYTE_POS, AMT_RANDOM_BYTES]
  rw [padBuffer, hrep]
  simp only [List.cons_append, List.nil_append]
  simp only [parse_on_server, parse_header, List.getD_cons_zero, List.getD_cons_succ,
    RELIABLE_FLAG_BYTE_POS, AMT_RANDOM_BYTES, SEQ_NUM_BYTE_POS, AMT_OF_CHUNKS_BYTE_POS,
    BASE_CHUNK_SEQ_NUM_BYTE_POS, DISCRIMINANT_BIT_START_POS, DATA_BIT_START_POS,
    List.length_cons, from_le16_zero, List.drop_succ_cons, List.drop_zero]
  rcases NetworkMessage.try_from d with e | message <;> simp

lemma parse_data_skeleton (m : NetworkMessage) (hm : WireCanonical m) (rel : Bool)
    (seq : Option Nat) :
    parse_data ⟨rel, seq, 0, 0, false, skeletonOf m⟩
        (payloadOf m ++
          List.replicate (MAX_UDP_PAYLOAD_DATA_LENGTH - (payloadOf m).length) 0) =
      .ok (.ok (if rel then ⟨true, seq, m⟩ else ⟨false, none, m⟩)) := by
  cases m with
  | GetServerPlayerIDs =>
      cases rel <;> simp [parse_data, skeletonOf, payloadOf]
  | GetOwnServerPlayerID =>
      cases rel <;> simp [parse_data, skeletonOf, payloadOf]
  | ServerRequestHostForWorldData =>
      cases rel <;> simp [parse_data, skeletonOf, payloadOf]
  | ClientSentWorld v =>
      have h0 : MAX_UDP_PAYLOAD_DATA_LENGTH - (payloadOf (.ClientSentWorld v)).length = 0 := by
        simp [payloadOf, hm.1]
      rw [h0]
      cases rel <;> simp [parse_data, skeletonOf, payloadOf]
  | ServerSentWorld v =>
      have h0 : MAX_UDP_PAYLOAD_DATA_LENGTH - (payloadOf (.ServerSentWorld v)).length = 0 := by
        simp [payloadOf, hm.1]
      rw [h0]
      cases rel <;> simp [parse_data, skeletonOf, payloadOf]
  | ClientConnectToOtherWorld id =>
      cases rel <;> simp [parse_data, skeletonOf, payloadOf]
  | ServerSideAck s =>
      have hs : s < 2 ^ 16 := hm
      have hlen : ¬((payloadOf (.ServerSideAck s) ++
          List.replicate (MAX_UDP_PAYLOAD_DATA_LENGTH -
            (payloadOf (.ServerSideAck s)).length) 0).length < 2) := by
        simp [payloadOf, le16]
      cases rel <;>
        simp [parse_data, skeletonOf, payloadOf, le16, hlen, from_le16_round s hs]
  | ClientSideAck s =>
      have hs : s < 2 ^ 16 := hm
      have hlen : ¬((payloadOf (.ClientSideAck s) ++
          List.replicate (MAX_UDP_PAYLOAD_DATA_LENGTH -
            (payloadOf (.ClientSideAck s)).length) 0).length < 2) := by
        simp [payloadOf, le16]
      cases rel <;>
        simp [parse_data, skeletonOf, payloadOf, le16, hlen, from_le16_round s hs]
  | ServerSentPlayerIDs ids =>
      have hids : ids.length ≤ 255 := hm.1
      have hmod : ids.length % 256 = ids.length := Nat.mod_eq_of_lt (by omega)
      have htake := List.take_left ids
        (List.replicate (MAX_UDP_PAYLOAD_DATA_LENGTH - (ids.length % 256 :: ids).length) 0)
      have hguard : ids.length + 1 ≤
          ((ids.length % 256 :: ids) ++
            List.replicate (MAX_UDP_PAYLOAD_DATA_LENGTH -
              (ids.length % 256 :: ids).length) 0).length := by
        simp only [List.length_append, List.length_cons, List.length_replicate,
          MAX_UDP_PAYLOAD_DATA_LENGTH, MAX_UDP_PAYLOAD_LEN, DATA_BIT_START_POS,
          DISCRIMINANT_BIT_START_POS, AMT_OF_CHUNKS_BYTE_POS, BASE_CHUNK_SEQ_NUM_BYTE_POS,
          SEQ_NUM_BYTE_POS, RELIABLE_FLAG_BYTE_POS, AMT_RANDOM_BYTES]
        omega
      cases rel <;>
        simp [parse_data, skeletonOf, payloadOf, hmod, hguard, htake]
  | ClientSentPlayerInputs inp =>
      obtain ⟨hn, hl⟩ := hm
      have hmod : inp.buffered_inputs.length % 256 = inp.buffered_inputs.length :=
        Nat.mod_eq_of_lt (by omega)
      have hloop := parseInputsLoop_encode inp.buffered_inputs [inp.buffered_inputs.length]
        (List.replicate (MAX_UDP_PAYLOAD_DATA_LENGTH -
          ((encodeEntries inp.buffered_inputs).length + 1)) 0) hl
      simp only [List.length_cons, List.length_nil, List.cons_append, List.nil_append,
        Nat.zero_add] at hloop
      cases rel <;>
      · simp only [parse_data, skeletonOf, payloadOf, encodeInputsPayload, hmod,
          List.cons_append, List.nil_append, List.length_cons, List.getD_cons_zero,
          List.length_append, List.length_replicate]
        rw [if_pos (by omega)]
        rw [hloop]
        simp
  | ServerSentPlayerInputs inp =>
      obtain ⟨hn, hl⟩ := hm
      have hmod : inp.buffered_inputs.length % 256 = inp.buffered_inputs.length :=
        Nat.mod_eq_of_lt (by omega)
      have hloop := parseInputsLoop_encode inp.buffered_inputs [inp.buffered_inputs.length]
        (List.replicate (MAX_UDP_PAYLOAD_DATA_LENGTH -
          ((encodeEntries inp.buffered_inputs).length + 1)) 0) hl
      simp only [List.length_cons, List.length_nil, List.cons_append, List.nil_append,
        Nat.zero_add] at hloop
      cases rel <;>
      · simp only [parse_data, skeletonOf, payloadOf, encodeInputsPayload, hmod,
          List.cons_append, List.nil_append, List.length_cons, List.getD_cons_zero,
          List.length_append, List.length_replicate]
        rw [if_pos (by omega)]
        rw [hloop]
        simp


lemma parse_on_server_shape_ok (a f s0 s1 d : Nat) (payload : List Nat) (msg : NetworkMessage)
    (hd : NetworkMessage.try_from d = .ok msg) :
    parse_on_server (padBuffer (a :: f :: s0 :: s1 :: 0 :: 0 :: 0 :: 0 :: d :: payload)) =
      match parse_data
          ⟨decide (0 < f), if decide (0 < f) = true then some (from_le16 s0 s1) else none,
            0, 0, false, msg⟩
          (payload ++ List.replicate (MAX_UDP_PAYLOAD_DATA_LENGTH - payload.length) 0) with
      | .panicked => .panicked
      | .ok (.error e) => .ok (.error e)
      | .ok (.ok dm) => .ok (.ok (.NonChunked dm)) := by
  rw [parse_on_server_shape, hd]

/-- C1 (amended): for every wire-canonical message and every send type, the
serialization is a single non-chunked datagram, and the appropriate
receive-side parser applied to that datagram in the fixed 508-byte buffer
returns a message with the same discriminant and equal payload contents. -/
theorem c1_wire_roundtrip (salt : Nat) (m : NetworkMessage) (t : NetworkMessageType)
    (hm : WireCanonical m) :
    NetworkMessage.serialize salt m t = .ok (.NonChunked ⟨serializedBytesOf salt m t⟩) ∧
    receiveParse m (padBuffer (serializedBytesOf salt m t)) =
      .ok (.ok (.NonChunked (parsedOf m t))) ∧
    (parsedOf m t).msg = m := by
  have hlen := payloadOf_length_le m hm
  refine ⟨serialize_shape salt m t hlen, ?_, by cases t <;> simp [parsedOf]⟩
  rw [receiveParse_eq]
  cases t with
  | ResendUntilAck s =>
      rw [show serializedBytesOf salt m (.ResendUntilAck s) =
        salt :: 1 :: (s % 256) :: (s / 256 % 256) :: 0 :: 0 :: 0 :: 0 :: m.toDisc ::
          payloadOf m from rfl]
      rw [parse_on_server_shape_ok _ _ _ _ _ _ _ (try_from_toDisc m)]
      rw [parse_data_skeleton m hm]
      simp [parsedOf]
  | SendOnceButReceiveAck s =>
      rw [show serializedBytesOf salt m (.SendOnceButReceiveAck s) =
        salt :: 1 :: (s % 256) :: (s / 256 % 256) :: 0 :: 0 :: 0 :: 0 :: m.toDisc ::
          payloadOf m from rfl]
      rw [parse_on_server_shape_ok _ _ _ _ _ _ _ (try_from_toDisc m)]
      rw [parse_data_skeleton m hm]
      simp [parsedOf]
  | SendOnce =>
      rw [show serializedBytesOf salt m .SendOnce =
        salt :: 0 :: 0 :: 0 :: 0 :: 0 :: 0 :: 0 :: m.toDisc :: payloadOf m from rfl]
      rw [parse_on_server_shape_ok _ _ _ _ _ _ _ (try_from_toDisc m)]
      rw [parse_data_skeleton m hm]
      simp [parsedOf]


/-- C1 counterexample: a 1-byte world blob serializes to a 10-byte datagram,
but the receive-side parser reads the whole 499-byte payload area of the
fixed buffer, so the parsed message carries the original byte followed by
498 padding zeros — not a message with payload equal to the original. -/
theorem c1_counterexample_world_padding :
    NetworkMessage.serialize 0 (.ClientSentWorld [1]) .SendOnce =
      .ok (.NonChunked ⟨[0, 0, 0, 0, 0, 0, 0, 0, 2, 1]⟩) ∧
    parse_on_server (padBuffer [0, 0, 0, 0, 0, 0, 0, 0, 2, 1]) =
      .ok (.ok (.NonChunked ⟨false, none, .ClientSentWorld (1 :: List.replicate 498 0)⟩)) ∧
    NetworkMessage.ClientSentWorld (1 :: List.replicate 498 0) ≠ .ClientSentWorld [1] :=
  ⟨rfl, rfl, by decide⟩

/-- Witness for C1's amended theorem at a concrete ack message. -/
theorem c1_witness :
    NetworkMessage.serialize 0 (.ServerSideAck 3) .SendOnce =
      .ok (.NonChunked ⟨serializedBytesOf 0 (.ServerSideAck 3) .SendOnce⟩) ∧
    receiveParse (.ServerSideAck 3)
        (padBuffer (serializedBytesOf 0 (.ServerSideAck 3) .SendOnce)) =
      .ok (.ok (.NonChunked (parsedOf (.ServerSideAck 3) .SendOnce))) ∧
    (parsedOf (.ServerSideAck 3) .SendOnce).msg = .ServerSideAck 3 :=
  c1_wire_roundtrip 0 (.ServerSideAck 3) .SendOnce (by norm_num [WireCanonical])


lemma chunksJoin : ∀ (n : Nat) (p : List Nat), p.length = MAX_UDP_PAYLOAD_DATA_LENGTH * n →
    ((List.range n).map fun i =>
      (p.drop (i * MAX_UDP_PAYLOAD_DATA_LENGTH)).take MAX_UDP_PAYLOAD_DATA_LENGTH).flatten
      = p := by
  intro n
  induction n with
  | zero =>
      intro p hp
      simp at hp
      simp [hp]
  | succ k ih =>
      intro p hp
      have hlen : (p.drop MAX_UDP_PAYLOAD_DATA_LENGTH).length =
          MAX_UDP_PAYLOAD_DATA_LENGTH * k := by
        simp [hp]
        ring_nf
        omega
      have ihp := ih (p.drop MAX_UDP_PAYLOAD_DATA_LENGTH) hlen
      have hmap : ((List.range k).map fun i =>
          ((p.drop MAX_UDP_PAYLOAD_DATA_LENGTH).drop (i * MAX_UDP_PAYLOAD_DATA_LENGTH)).take
            MAX_UDP_PAYLOAD_DATA_LENGTH) =
          (List.range k).map fun i =>
            (p.drop ((i + 1) * MAX_UDP_PAYLOAD_DATA_LENGTH)).take MAX_UDP_PAYLOAD_DATA_LENGTH := by
        apply List.map_congr_left
        intro i _
        rw [List.drop_drop]
        ring_nf
      rw [List.range_succ_eq_map, List.map_cons, List.flatten_cons, List.map_map]
      have hcomp : ((fun i =>
          (p.drop (i * MAX_UDP_PAYLOAD_DATA_LENGTH)).take MAX_UDP_PAYLOAD_DATA_LENGTH) ∘
            Nat.succ) = fun i =>
          (p.drop ((i + 1) * MAX_UDP_PAYLOAD_DATA_LENGTH)).take MAX_UDP_PAYLOAD_DATA_LENGTH := by
        funext i
        simp [Nat.succ_eq_add_one]
      rw [hcomp, ← hmap, ihp]
      simp [List.take_append_drop]


lemma parse_header_explicit (a f s0 s1 b0 b1 c0 c1 d : Nat) (tail : List Nat)
    (msg : NetworkMessage) (hd : NetworkMessage.try_from d = .ok msg) :
    parse_header (a :: f :: s0 :: s1 :: b0 :: b1 :: c0 :: c1 :: d :: tail) =
      .ok ⟨decide (0 < f),
        if decide (0 < f) = true then some (from_le16 s0 s1) else none,
        from_le16 c0 c1, from_le16 b0 b1, decide (0 < from_le16 c0 c1), msg⟩ := by
  simp only [parse_header, List.getD_cons_zero, List.getD_cons_succ, RELIABLE_FLAG_BYTE_POS,
    AMT_RANDOM_BYTES, SEQ_NUM_BYTE_POS, AMT_OF_CHUNKS_BYTE_POS, BASE_CHUNK_SEQ_NUM_BYTE_POS,
    DISCRIMINANT_BIT_START_POS, hd]

lemma parse_chunk_shape (a s0 s1 b0 b1 c0 c1 d : Nat) (payload : List Nat)
    (msg : NetworkMessage) (hd : NetworkMessage.try_from d = .ok msg)
    (hchk : 0 < from_le16 c0 c1) :
    parse_on_client (padBuffer (a :: 1 :: s0 :: s1 :: b0 :: b1 :: c0 :: c1 :: d :: payload)) =
      .ok (.ok (.ChunkOfMessage ⟨from_le16 s0 s1, from_le16 b0 b1, from_le16 c0 c1,
        padBuffer (a :: 1 :: s0 :: s1 :: b0 :: b1 :: c0 :: c1 :: d :: payload)⟩)) := by
  have hpad : padBuffer (a :: 1 :: s0 :: s1 :: b0 :: b1 :: c0 :: c1 :: d :: payload) =
      a :: 1 :: s0 :: s1 :: b0 :: b1 :: c0 :: c1 :: d ::
        (payload ++ List.replicate (MAX_UDP_PAYLOAD_LEN -
          (a :: 1 :: s0 :: s1 :: b0 :: b1 :: c0 :: c1 :: d :: payload).length) 0) := by
    simp [padBuffer]
  rw [hpad]
  rw [show parse_on_client = parse_on_server from rfl]
  simp only [parse_on_server, parse_header_explicit a 1 s0 s1 b0 b1 c0 c1 d _ msg hd,
    List.length_cons]
  simp [hchk, Nat.pos_iff_ne_zero.mp hchk]


lemma from_le16_le16 (x : Nat) :
    from_le16 (x % 2 ^ 16 % 256) (x % 2 ^ 16 / 256 % 256) = x % 2 ^ 16 :=
  from_le16_round (x % 2 ^ 16) (Nat.mod_lt x (by norm_num))

lemma c2_pipeline (salt base : Nat) (p : List Nat) (n : Nat)
    (hp : p.length = MAX_UDP_PAYLOAD_DATA_LENGTH * n) (hn : 0 < n) (hn16 : n < 2 ^ 16)
    (hb : base + n ≤ 2 ^ 16) :
    (chunk_bytes salt 8 p base).map (fun c => parse_on_client (padBuffer c)) =
      (List.range n).map fun i => .ok (.ok (.ChunkOfMessage (chunkRecord salt base n p i))) := by
  have hMAX : MAX_UDP_PAYLOAD_DATA_LENGTH = 499 := by norm_num [MAX_UDP_PAYLOAD_DATA_LENGTH,
    MAX_UDP_PAYLOAD_LEN, DATA_BIT_START_POS, DISCRIMINANT_BIT_START_POS, AMT_OF_CHUNKS_BYTE_POS,
    BASE_CHUNK_SEQ_NUM_BYTE_POS, SEQ_NUM_BYTE_POS, RELIABLE_FLAG_BYTE_POS, AMT_RANDOM_BYTES]
  have hamt : (p.length + MAX_UDP_PAYLOAD_DATA_LENGTH - 1) / MAX_UDP_PAYLOAD_DATA_LENGTH = n := by
    rw [hMAX] at hp ⊢
    omega
  unfold chunk_bytes
  rw [hamt, List.map_map]
  apply List.map_congr_left
  intro i hi
  have hi' : i < n := List.mem_range.mp hi
  have hseq : (base + i % 2 ^ 16) % 2 ^ 16 = base + i := by
    have h1 : i % 2 ^ 16 = i := Nat.mod_eq_of_lt (by omega)
    rw [h1]
    exact Nat.mod_eq_of_lt (by omega)
  have hn16' : n % 2 ^ 16 = n := Nat.mod_eq_of_lt hn16
  show parse_on_client (padBuffer ([salt, 1] ++ le16 ((base + i % 2 ^ 16) % 2 ^ 16) ++
    le16 base ++ le16 (n % 2 ^ 16) ++ [8] ++
    ((p.drop (i * MAX_UDP_PAYLOAD_DATA_LENGTH)).take MAX_UDP_PAYLOAD_DATA_LENGTH))) = _
  rw [hseq, hn16']
  rw [show ([salt, 1] ++ le16 (base + i) ++ le16 base ++ le16 n ++ [8] ++
      ((p.drop (i * MAX_UDP_PAYLOAD_DATA_LENGTH)).take MAX_UDP_PAYLOAD_DATA_LENGTH)) =
    salt :: 1 :: ((base + i) % 256) :: ((base + i) / 256 % 256) :: (base % 256) ::
      (base / 256 % 256) :: (n % 256) :: (n / 256 % 256) :: 8 ::
      ((p.drop (i * MAX_UDP_PAYLOAD_DATA_LENGTH)).take MAX_UDP_PAYLOAD_DATA_LENGTH) from rfl]
  rw [parse_chunk_shape _ _ _ _ _ _ _ 8 _ (.ServerSentWorld []) rfl
    (by rw [from_le16_round n hn16]; exact hn)]
  rw [from_le16_round (base + i) (by omega), from_le16_round base (by omega),
    from_le16_round n hn16]
  rfl


lemma chunkRecord_drop (salt base n i : Nat) (p : List Nat)
    (hp : p.length = MAX_UDP_PAYLOAD_DATA_LENGTH * n) (hi : i < n) :
    (chunkRecord salt base n p i).data_bytes.drop DATA_BIT_START_POS =
      (p.drop (i * MAX_UDP_PAYLOAD_DATA_LENGTH)).take MAX_UDP_PAYLOAD_DATA_LENGTH := by
  have hMAX : MAX_UDP_PAYLOAD_DATA_LENGTH = 499 := by norm_num [MAX_UDP_PAYLOAD_DATA_LENGTH,
    MAX_UDP_PAYLOAD_LEN, DATA_BIT_START_POS, DISCRIMINANT_BIT_START_POS, AMT_OF_CHUNKS_BYTE_POS,
    BASE_CHUNK_SEQ_NUM_BYTE_POS, SEQ_NUM_BYTE_POS, RELIABLE_FLAG_BYTE_POS, AMT_RANDOM_BYTES]
  have hslice : ((p.drop (i * MAX_UDP_PAYLOAD_DATA_LENGTH)).take
      MAX_UDP_PAYLOAD_DATA_LENGTH).length = 499 := by
    rw [hMAX] at hp ⊢
    simp
    omega
  unfold chunkRecord padBuffer
  simp only [List.cons_append, List.nil_append, le16, List.length_cons, List.length_append,
    hslice, DATA_BIT_START_POS, DISCRIMINANT_BIT_START_POS, AMT_OF_CHUNKS_BYTE_POS,
    BASE_CHUNK_SEQ_NUM_BYTE_POS, SEQ_NUM_BYTE_POS, RELIABLE_FLAG_BYTE_POS, AMT_RANDOM_BYTES,
    MAX_UDP_PAYLOAD_LEN]
  norm_num

lemma c2_reassembly (salt base : Nat) (p : List Nat) (n : Nat)
    (hp : p.length = MAX_UDP_PAYLOAD_DATA_LENGTH * n) (hn : 0 < n) (hn16 : n < 2 ^ 16)
    (hb : base + n ≤ 2 ^ 16) (arr : List ChunkOfMessage)
    (hperm : arr.Perm ((List.range n).map (chunkRecord salt base n p))) :
    try_combine_slot arr = .ok (some ⟨true, some base, .ServerSentWorld p⟩) := by
  have hsorted_rec : List.Pairwise seqLt ((List.range n).map (chunkRecord salt base n p)) := by
    rw [List.pairwise_map]
    exact (List.pairwise_lt_range n).imp fun h => by
      simpa [seqLt, chunkRecord] using h
  have hperm2 : (List.insertionSort seqLe arr).Perm
      ((List.range n).map (chunkRecord salt base n p)) :=
    (List.perm_insertionSort seqLe arr).trans hperm
  have hsorted_le : List.Pairwise seqLe (List.insertionSort seqLe arr) :=
    List.sorted_insertionSort seqLe arr
  have hnodup : (((List.range n).map (chunkRecord salt base n p)).map
      (fun c => c.seq_num)).Nodup := by
    rw [List.map_map]
    have : ((fun c : ChunkOfMessage => c.seq_num) ∘ chunkRecord salt base n p) =
        fun i => base + i := by
      funext i
      rfl
    rw [this]
    exact List.Nodup.map (fun a b hab => by omega) (List.nodup_range n)
  have hnodup2 : ((List.insertionSort seqLe arr).map (fun c => c.seq_num)).Nodup :=
    ((hperm2.map fun c => c.seq_num).nodup_iff).mpr hnodup
  have hne : List.Pairwise (fun a b : ChunkOfMessage => a.seq_num ≠ b.seq_num)
      (List.insertionSort seqLe arr) := List.pairwise_map.mp hnodup2
  have hsorted_lt : List.Pairwise seqLt (List.insertionSort seqLe arr) :=
    (hsorted_le.and hne).imp fun h => lt_of_le_of_ne h.1 h.2
  have hEq : List.insertionSort seqLe arr = (List.range n).map (chunkRecord salt base n p) :=
    List.eq_of_perm_of_sorted hperm2 hsorted_lt hsorted_rec
  obtain ⟨m, rfl⟩ : ∃ m, n = m + 1 := ⟨n - 1, by omega⟩
  have hlast? : (((List.range (m + 1)).map (chunkRecord salt base (m + 1) p))).getLast? =
      some (chunkRecord salt base (m + 1) p m) := by
    rw [List.range_succ, List.map_append]
    simp
  rcases hrec : (List.range (m + 1)).map (chunkRecord salt base (m + 1) p) with _ | ⟨first, rest⟩
  · exfalso
    have := congrArg List.length hrec
    simp at this
  · have hfirst : first = chunkRecord salt base (m + 1) p 0 := by
      have h0 : List.range (m + 1) = 0 :: (List.range m).map Nat.succ := List.range_succ_eq_map m
      rw [h0] at hrec
      simp at hrec
      exact hrec.1.symm
    have hlastv : (first :: rest).getLast (List.cons_ne_nil _ _) =
        chunkRecord salt base (m + 1) p m := by
      have := hlast?
      rw [hrec] at this
      rwa [List.getLast?_eq_getLast _ (List.cons_ne_nil _ _), Option.some_inj] at this
    have hlen : (first :: rest).length = m + 1 := by
      have := congrArg List.length hrec
      simpa using this.symm
    unfold try_combine_slot
    rw [hEq, hrec]
    simp only [hlastv, hlen]
    rw [if_pos ?cond]
    case cond =>
      refine ⟨?_, rfl⟩
      show base + m = (base + ((m + 1) + (2 ^ 16 - 1)) % 2 ^ 16) % 2 ^ 16
      have h1 : ((m + 1) + (2 ^ 16 - 1)) % 2 ^ 16 = m := by omega
      rw [h1]
      omega
    have hflat : ((first :: rest).flatMap fun chunk =>
        List.drop DATA_BIT_START_POS chunk.data_bytes) = p := by
      rw [← hrec]
      have h1 : ∀ (g : ChunkOfMessage → List Nat),
          ((List.range (m + 1)).map (chunkRecord salt base (m + 1) p)).flatMap g =
          ((List.range (m + 1)).map fun i => g (chunkRecord salt base (m + 1) p i)).flatten := by
        intro g
        rw [List.flatMap_def, List.map_map]
        rfl
      rw [h1]
      have h2 : ((List.range (m + 1)).map fun i =>
          (chunkRecord salt base (m + 1) p i).data_bytes.drop DATA_BIT_START_POS) =
          (List.range (m + 1)).map fun i =>
            (p.drop (i * MAX_UDP_PAYLOAD_DATA_LENGTH)).take MAX_UDP_PAYLOAD_DATA_LENGTH := by
        apply List.map_congr_left
        intro i hi
        exact chunkRecord_drop salt base (m + 1) i p hp (List.mem_range.mp hi)
      rw [h2, chunksJoin (m + 1) p hp]
    rw [hflat, hfirst]
    have hpad : (chunkRecord salt base (m + 1) p 0).data_bytes =
        salt :: 1 :: ((base + 0) % 256) :: ((base + 0) / 256 % 256) :: (base % 256) ::
          (base / 256 % 256) :: ((m + 1) % 256) :: ((m + 1) / 256 % 256) :: 8 ::
          ((p.drop (0 * MAX_UDP_PAYLOAD_DATA_LENGTH)).take MAX_UDP_PAYLOAD_DATA_LENGTH ++
            List.replicate (MAX_UDP_PAYLOAD_LEN -
              (salt :: 1 :: ((base + 0) % 256) :: ((base + 0) / 256 % 256) :: (base % 256) ::
                (base / 256 % 256) :: ((m + 1) % 256) :: ((m + 1) / 256 % 256) :: 8 ::
                  ((p.drop (0 * MAX_UDP_PAYLOAD_DATA_LENGTH)).take
                    MAX_UDP_PAYLOAD_DATA_LENGTH)).length) 0) := by
      unfold chunkRecord padBuffer
      simp [le16]
    rw [hpad, parse_header_explicit _ _ _ _ _ _ _ _ 8 _ (.ServerSentWorld []) rfl]
    have hseq0 : from_le16 ((base + 0) % 256) ((base + 0) / 256 % 256) = base := by
      rw [Nat.add_zero]
      exact from_le16_round base (by omega)
    simp only [parse_data, hseq0]
    norm_num


lemma c2_incomplete (n : Nat) (arr : List ChunkOfMessage) (hlen : arr.length < n)
    (hamt : ∀ c ∈ arr, c.amt_of_chunks = n) : try_combine_slot arr = .ok none := by
  rcases hs : List.insertionSort seqLe arr with _ | ⟨first, rest⟩
  · unfold try_combine_slot
    rw [hs]
  · have hmem : (first :: rest).getLast (List.cons_ne_nil _ _) ∈ arr := by
      have h1 : (first :: rest).getLast (List.cons_ne_nil _ _) ∈
          List.insertionSort seqLe arr := by
        rw [hs]
        exact List.getLast_mem _
      exact (List.perm_insertionSort seqLe arr).subset h1
    have h2 : ((first :: rest).getLast (List.cons_ne_nil _ _)).amt_of_chunks = n :=
      hamt _ hmem
    have h3 : (first :: rest).length = arr.length := by
      rw [← hs]
      exact (List.perm_insertionSort seqLe arr).length_eq
    unfold try_combine_slot
    rw [hs]
    simp only [h2, h3]
    rw [if_neg]
    rintro ⟨-, hc⟩
    omega

/-- C2 (amended): for a payload that is a positive multiple of the 499-byte
chunk size, chunked with a non-wrapping seq-num range, every chunk datagram
parses back to its chunk record, reassembly from the chunks in any arrival
order (each exactly once) reproduces exactly the original payload bytes, and
the collector declares the message complete only when all `n` chunks are
present. -/
theorem c2_chunking_roundtrip (salt base : Nat) (p : List Nat) (n : Nat)
    (hp : p.length = MAX_UDP_PAYLOAD_DATA_LENGTH * n) (hn : 0 < n) (hmax : p.length ≤ 2 ^ 16)
    (hb : base + n ≤ 2 ^ 16) :
    chunk_message salt 8 p (.ResendUntilAck base) = .ok (chunk_bytes salt 8 p base) ∧
    (chunk_bytes salt 8 p base).map (fun c => parse_on_client (padBuffer c)) =
      (List.range n).map (fun i => .ok (.ok (.ChunkOfMessage (chunkRecord salt base n p i)))) ∧
    (∀ arr : List ChunkOfMessage,
      arr.Perm ((List.range n).map (chunkRecord salt base n p)) →
      try_combine_slot arr = .ok (some ⟨true, some base, .ServerSentWorld p⟩)) ∧
    (∀ arr : List ChunkOfMessage, arr.length < n → (∀ c ∈ arr, c.amt_of_chunks = n) →
      try_combine_slot arr = .ok none) := by
  have hMAX : MAX_UDP_PAYLOAD_DATA_LENGTH = 499 := by norm_num [MAX_UDP_PAYLOAD_DATA_LENGTH,
    MAX_UDP_PAYLOAD_LEN, DATA_BIT_START_POS, DISCRIMINANT_BIT_START_POS, AMT_OF_CHUNKS_BYTE_POS,
    BASE_CHUNK_SEQ_NUM_BYTE_POS, SEQ_NUM_BYTE_POS, RELIABLE_FLAG_BYTE_POS, AMT_RANDOM_BYTES]
  have hn16 : n < 2 ^ 16 := by
    rw [hMAX] at hp
    omega
  exact ⟨rfl, c2_pipeline salt base p n hp hn hn16 hb,
    fun arr hperm => c2_reassembly salt base p n hp hn hn16 hb arr hperm,
    fun arr hlen hamt => c2_incomplete n arr hlen hamt⟩

/-- Witness for C2's amended theorem: a 998-byte payload split in two chunks
arriving in reverse order reassembles to the original payload. -/
theorem c2_witness :
    try_combine_slot
        (((List.range 2).map (chunkRecord 0 100 2 (List.replicate 998 7))).reverse) =
      .ok (some ⟨true, some 100, .ServerSentWorld (List.replicate 998 7)⟩) :=
  ((c2_chunking_roundtrip 0 100 (List.replicate 998 7) 2
      (by norm_num [MAX_UDP_PAYLOAD_DATA_LENGTH, MAX_UDP_PAYLOAD_LEN, DATA_BIT_START_POS,
        DISCRIMINANT_BIT_START_POS, AMT_OF_CHUNKS_BYTE_POS, BASE_CHUNK_SEQ_NUM_BYTE_POS,
        SEQ_NUM_BYTE_POS, RELIABLE_FLAG_BYTE_POS, AMT_RANDOM_BYTES])
      (by norm_num) (by norm_num) (by norm_num)).2.2.1)
    _ (List.reverse_perm _)

/-- C2 counterexample: a 999-byte payload chunked from base seq-num 65534
produces three chunks whose distinct seq-nums 65534, 65535, 0 cover the whole
wrapped range, yet the collector never declares the message complete —
`sort_by_key` orders the wrapped seq-num 0 first, so the completeness test on
the numerically largest seq-num fails. -/
theorem c2_counterexample_wraparound :
    chunk_message 0 8 (List.replicate 999 7) (.ResendUntilAck 65534) =
      .ok (chunk_bytes 0 8 (List.replicate 999 7) 65534) ∧
    (((chunk_bytes 0 8 (List.replicate 999 7) 65534).map receivedChunkOf).map
        fun c => (c.seq_num, c.base_seq_num, c.amt_of_chunks)) =
      [(65534, 65534, 3), (65535, 65534, 3), (0, 65534, 3)] ∧
    ((((chunk_bytes 0 8 (List.replicate 999 7) 65534).map receivedChunkOf).map
        fun c => c.seq_num).Nodup) ∧
    try_combine_slot ((chunk_bytes 0 8 (List.replicate 999 7) 65534).map receivedChunkOf) =
      .ok none :=
  ⟨rfl, rfl, by decide, rfl⟩

end UnlockRS
